import Mathlib

/-!
# Verification of the connecto core against its specification

This file embeds the protocol, sync, key-management and discovery logic of
`connecto_core` (Rust) as Lean definitions and proves or refutes the frozen
claims about them.

Conventions of the embedding:
* Rust `String`/`&str` values are modelled as `List Char` (Rust strings are
  sequences of Unicode scalar values, exactly Lean `Char` lists).  Substring
  search (`str::contains`) on valid UTF-8 coincides with character-level
  infix search because UTF-8 is self-synchronizing.
* Fallible Rust functions returning `Result<T, E>` become `Except E T`
  (or `Option`/plain values when the error path cannot trigger in the
  modelled fragment).
* File contents (the `authorized_keys` collaborator) are modelled as
  `Option (List Char)`: `none` means the file does not exist.
* Machine integers are `Nat` with explicit `% 2 ^ 32` where Rust wrapping
  matters, or `Fin` types where the Rust type's range matters.
-/

/-- Unicode white space test used by Rust's `char::is_whitespace` /
`str::split_whitespace` / `str::trim`, restricted to the code points that
occur in ASCII plus the common Latin-1 ones (the protocol never produces
other whitespace). -/
def rustIsWhitespace (c : Char) : Bool :=
  c = ' ' || c = '\t' || c = '\n' || c = '\r' ||
  c = '\x0b' || c = '\x0c' || c = '\u0085' || c = ' '

/-- `str::split_whitespace`: split on runs of whitespace, no empty items. -/
def splitWhitespace : List Char → List (List Char)
  | [] => []
  | c :: rest =>
    if rustIsWhitespace c then splitWhitespace rest
    else
      match splitWhitespace rest with
      | [] => [[c]]
      | w :: ws =>
        match rest with
        | [] => [[c]]
        | r :: _ => if rustIsWhitespace r then [c] :: w :: ws else (c :: w) :: ws

/-- `str::trim`: drop whitespace from both ends. -/
def rustTrim (l : List Char) : List Char :=
  ((l.dropWhile rustIsWhitespace).reverse.dropWhile rustIsWhitespace).reverse

/-- `str::lines`: split on `'\n'`, drop a final empty piece (trailing
newline), strip one trailing `'\r'` from each line. -/
def rustLines (content : List Char) : List (List Char) :=
  let parts := content.splitOn '\n'
  let parts := if parts.getLast? = some [] then parts.dropLast else parts
  parts.map (fun l => if l.getLast? = some '\r' then l.dropLast else l)

/-- Character-level infix test (helper for `rustContains`). -/
def isInfixOfList (needle haystack : List Char) : Bool :=
  needle.isPrefixOf haystack ||
    match haystack with
    | [] => false
    | _ :: t => isInfixOfList needle t

/-- `str::contains(needle)`: substring search. -/
def rustContains (haystack needle : List Char) : Bool :=
  isInfixOfList needle haystack

/-! ## `keys.rs`: the authorized-keys collaborator (`KeyManager`)

The state of `KeyManager` relevant to the claims is the content of the
`authorized_keys` file: `none` when the file does not exist, `some content`
otherwise.  Path handling, permissions and I/O errors are platform glue
outside the modelled fragment (they can only fail with `Io` errors that no
claim is about). -/

/-- Content of the `authorized_keys` file (`none` = file absent). -/
abbrev AuthStore := Option (List Char)

/-- `KeyManager::add_authorized_key` (keys.rs:222-271).

If the file exists, the key's second whitespace-separated field (when it
has at least two fields) is searched for as a substring of the existing
content; on a hit the call is a no-op returning `Ok(())`.  Otherwise the
key line plus `'\n'` is appended (creating the file when absent). -/
def addAuthorizedKey (store : AuthStore) (publicKey : List Char) : AuthStore :=
  let alreadyThere :=
    match store with
    | some existing =>
      let newKeyParts := splitWhitespace publicKey
      if 2 ≤ newKeyParts.length then
        rustContains existing (newKeyParts.getD 1 [])
      else false
    | none => false
  if alreadyThere then store
  else some ((match store with | some existing => existing | none => []) ++
             publicKey ++ ['\n'])

/-- `KeyManager::list_authorized_keys` (keys.rs:376-389): the lines of the
file that are not blank and do not start with `'#'`. -/
def listAuthorizedKeys (store : AuthStore) : List (List Char) :=
  match store with
  | none => []
  | some content =>
    (rustLines content).filter
      (fun line => !(rustTrim line).isEmpty && !(line.head? = some '#'))

/-- The file content an `AuthStore` denotes (`none` reads as empty). -/
def contentOf (store : AuthStore) : List Char :=
  match store with
  | none => []
  | some c => c

/-- How many of the file's lines equal `line`. -/
def entryCount (store : AuthStore) (line : List Char) : Nat :=
  match store with
  | none => 0
  | some c => (rustLines c).count line

/-! ## `discovery.rs`: `SubnetScanner::parse_cidr` (lines 314-358)

IPv4 addresses are modelled as their `u32` numeric value (a `Nat` below
`2 ^ 32`), exactly as the source converts them with `u32::from` before the
bitmask arithmetic.  `u32` subtraction/addition wraps (Rust release
semantics), modelled with explicit `% 4294967296`. -/

/-- Numeric value of a digit string (used by the octet and prefix parsers). -/
def digitsVal (l : List Char) : Nat :=
  l.foldl (fun a c => a * 10 + (c.toNat - 48)) 0

/-- One dotted-decimal octet as parsed by Rust's `Ipv4Addr::from_str`:
nonempty, all digits, no leading zero (except `"0"` itself), value ≤ 255. -/
def parseOctet (l : List Char) : Option Nat :=
  if l.isEmpty then none
  else if !(l.all Char.isDigit) then none
  else if 1 < l.length && l.head? = some '0' then none
  else if digitsVal l ≤ 255 then some (digitsVal l) else none

/-- `Ipv4Addr::from_str`, returning the `u32` value of the address. -/
def parseIpv4 (l : List Char) : Option Nat :=
  match (l.splitOn '.').map parseOctet with
  | [some a, some b, some c, some d] => some (((a * 256 + b) * 256 + c) * 256 + d)
  | _ => none

/-- `u8::from_str` (the prefix length): optional `'+'`, then a nonempty
digit string whose value fits in a `u8`. -/
def parseU8 (l : List Char) : Option Nat :=
  let digits := match l with | '+' :: rest => rest | _ => l
  if digits.isEmpty then none
  else if !(digits.all Char.isDigit) then none
  else if digitsVal digits ≤ 255 then some (digitsVal digits) else none

/-- The subnet mask `!0u32 << (32 - prefix)` (with the `prefix == 32`
special case), discovery.rs:340-344. -/
def cidrMask (prefixLen : Nat) : Nat :=
  if prefixLen = 32 then 4294967295
  else (4294967295 <<< (32 - prefixLen)) % 4294967296

/-- `network = base & mask` (discovery.rs:345). -/
def cidrNetwork (base prefixLen : Nat) : Nat :=
  base &&& cidrMask prefixLen

/-- `broadcast = network | !mask` (discovery.rs:346). -/
def cidrBroadcast (base prefixLen : Nat) : Nat :=
  cidrNetwork base prefixLen ||| (4294967295 ^^^ cidrMask prefixLen)

/-- The host addresses `(start..=end)` generated by `parse_cidr`
(discovery.rs:348-355): network and broadcast are skipped for `/24`-or-
narrower prefixes, only the network address otherwise.  `u32` wrap-around
of `network + 1` and `broadcast - 1` is taken modulo `2 ^ 32`. -/
def cidrHosts (base prefixLen : Nat) : List Nat :=
  let network := cidrNetwork base prefixLen
  let broadcast := cidrBroadcast base prefixLen
  let start := (network + 1) % 4294967296
  let stop :=
    if 24 ≤ prefixLen then (broadcast + 4294967295) % 4294967296 else broadcast
  List.range' start (stop + 1 - start)

/-- `SubnetScanner::parse_cidr` (discovery.rs:314-358). -/
def parseCidr (cidr : List Char) : Except (List Char) (List Nat) :=
  match cidr.splitOn '/' with
  | [ipStr, prefixStr] =>
    match parseIpv4 ipStr with
    | none => .error ("Invalid IP address: ".data ++ ipStr)
    | some base =>
      match parseU8 prefixStr with
      | none => .error ("Invalid prefix length: ".data ++ prefixStr)
      | some prefixLen =>
        if 32 < prefixLen then
          .error "Prefix length must be between 0 and 32".data
        else if prefixLen < 16 then
          .error "Prefix length must be at least /16 to avoid scanning too many hosts".data
        else .ok (cidrHosts base prefixLen)
  | _ => .error "Invalid CIDR format, expected IP/prefix (e.g., 10.0.0.0/24)".data

/-! ## `error.rs`: the declared `ConnectoError` enum (lines 6-40)

Exactly the variants declared in the source.  Note that `sync.rs` also
names `ConnectoError::Protocol`, `ConnectoError::Sync`,
`ConnectoError::SyncRejected` and `ConnectoError::SyncWithSelf`, none of
which the declaration provides — see the claims about the error taxonomy. -/

abbrev U32 := Fin 4294967296

inductive ConnectoError where
  | Discovery (msg : List Char)
  | KeyGeneration (msg : List Char)
  | KeyParsing (msg : List Char)
  | Network (msg : List Char)
  | Handshake (msg : List Char)
  | Io (msg : List Char)
  | SshKey (msg : List Char)
  | Serialization (msg : List Char)
  | Timeout (msg : List Char)
  | DeviceNotFound (msg : List Char)
  | AuthorizedKeys (msg : List Char)
deriving DecidableEq

/-- The Rust variant name of a declared `ConnectoError` value. -/
def ConnectoError.variantName : ConnectoError → List Char
  | .Discovery _ => "Discovery".data
  | .KeyGeneration _ => "KeyGeneration".data
  | .KeyParsing _ => "KeyParsing".data
  | .Network _ => "Network".data
  | .Handshake _ => "Handshake".data
  | .Io _ => "Io".data
  | .SshKey _ => "SshKey".data
  | .Serialization _ => "Serialization".data
  | .Timeout _ => "Timeout".data
  | .DeviceNotFound _ => "DeviceNotFound".data
  | .AuthorizedKeys _ => "AuthorizedKeys".data

/-! ## `protocol.rs`: the declared `Message` enum (lines 19-56)

Exactly the six variants the source declares.  `sync.rs` additionally
constructs `Message::SyncHello`, `Message::SyncHelloAck` and
`Message::SyncComplete`, which this declaration does not provide — see the
claims about the message union. -/

/-- `PROTOCOL_VERSION: u32 = 1` (protocol.rs:16). -/
def PROTOCOL_VERSION : U32 := 1

inductive Message where
  | Hello (version : U32) (device_name : List Char)
  | HelloAck (version : U32) (device_name : List Char)
      (verification_code : Option (List Char))
  | KeyExchange (public_key : List Char) (comment : List Char)
  | KeyAccepted (message : List Char)
  | Error (code : U32) (message : List Char)
  | PairingComplete (ssh_user : List Char)
deriving DecidableEq

/-- The value of the serde `type` discriminator field for each variant. -/
def Message.tag : Message → List Char
  | .Hello .. => "Hello".data
  | .HelloAck .. => "HelloAck".data
  | .KeyExchange .. => "KeyExchange".data
  | .KeyAccepted .. => "KeyAccepted".data
  | .Error .. => "Error".data
  | .PairingComplete .. => "PairingComplete".data

/-! ## `protocol.rs`: handshake server and client state machines

The TCP byte stream is abstracted to the sequence of protocol lines it
carries, each already decoded to a `Message` (each `write_all` of
`to_json` puts exactly one line on the wire and `read_line` + `from_json`
recovers exactly the written message; the wire-level round trip is proved
separately with `toWire` / `fromWire` below).  Reaching a read when the
peer has sent nothing more models `read_line` returning an empty line,
which `from_json` rejects with a `Serialization` error.

Ambient effects become parameters: `sshUser` is `$USER`, `vcode` is the
code `generate_verification_code()` would return.  The `ServerEvent` side
channel carries no protocol data and is not modelled. -/

/-- `keys.rs` `SshKeyPair` (fields used by the protocol). -/
structure SshKeyPair where
  private_key : List Char
  public_key : List Char
  comment : List Char
deriving DecidableEq

/-- `protocol.rs` `PairingResult` (lines 412-417). -/
structure PairingResult where
  server_name : List Char
  ssh_user : List Char
  verification_code : Option (List Char)
deriving DecidableEq

instance {ε α : Type} [DecidableEq ε] [DecidableEq α] : DecidableEq (Except ε α) :=
  fun x y =>
    match x, y with
    | .ok a, .ok b =>
      if h : a = b then .isTrue (by rw [h]) else .isFalse (by simp [h])
    | .error a, .error b =>
      if h : a = b then .isTrue (by rw [h]) else .isFalse (by simp [h])
    | .ok _, .error _ => .isFalse (by simp)
    | .error _, .ok _ => .isFalse (by simp)

/-- Outcome of one server-side connection handler: its return value, the
messages it wrote, and the resulting authorized-keys state. -/
structure ServerRunOutcome where
  result : Except ConnectoError Unit
  sent : List Message
  store : AuthStore
deriving DecidableEq

/-- The error produced when a protocol line fails to parse (serde error,
`ConnectoError::Serialization` via `#[from]`); an exhausted input stream
yields an empty line, which is such a failure. -/
def parseFailure : ConnectoError := .Serialization "malformed message line".data

/-- `handle_client` (protocol.rs:194-311). -/
def handleClient (deviceName : List Char) (requireVerification : Bool)
    (vcode sshUser : List Char) (store : AuthStore) (input : List Message) :
    ServerRunOutcome :=
  match input with
  | [] => ⟨.error parseFailure, [], store⟩
  | hello :: rest =>
    match hello with
    | .Hello version _client_name =>
      if version ≠ PROTOCOL_VERSION then
        ⟨.error (.Handshake "Protocol version mismatch".data),
         [.Error 1 ("Protocol version mismatch: expected 1, got ".data ++
                    (Nat.repr version.val).data)], store⟩
      else
        let verification_code :=
          if requireVerification then some vcode else none
        let helloAck : Message :=
          .HelloAck PROTOCOL_VERSION deviceName verification_code
        match rest with
        | [] => ⟨.error parseFailure, [helloAck], store⟩
        | keyExchange :: _ =>
          match keyExchange with
          | .KeyExchange public_key _comment =>
            let store' := addAuthorizedKey store public_key
            ⟨.ok (), [helloAck,
                      .KeyAccepted "Key added to authorized_keys".data,
                      .PairingComplete sshUser], store'⟩
          | _ =>
            ⟨.error (.Handshake "Expected KeyExchange".data),
             [helloAck, .Error 3 "Expected KeyExchange message".data], store⟩
    | _ =>
      ⟨.error (.Handshake "Expected Hello".data),
       [.Error 2 "Expected Hello message".data], store⟩

/-- `HandshakeServer` (protocol.rs:83-88): the listener is an opaque
handle, `none` when not listening (exactly the `Option<TcpListener>`). -/
structure HandshakeServer where
  listener : Option Nat
  deviceName : List Char
  requireVerification : Bool
deriving DecidableEq

/-- `HandshakeServer::listen` on success (protocol.rs:108-119): stores the
bound listener.  (A bind failure returns `Network` and leaves the state
unchanged; it depends only on the environment, not on the state.) -/
def HandshakeServer.listenOk (s : HandshakeServer) (l : Nat) : HandshakeServer :=
  { s with listener := some l }

/-- The `self.listener.take().ok_or(Network("Server not started"))` step
shared by `run` (protocol.rs:122-126) and `handle_one`
(protocol.rs:167-171).  `take` clears the field in either case. -/
def HandshakeServer.takeListener (s : HandshakeServer) :
    HandshakeServer × Except ConnectoError Nat :=
  ({ s with listener := none },
   match s.listener with
   | none => .error (.Network "Server not started".data)
   | some l => .ok l)

/-- Outcome of `handle_one`: the successor server state, whether a
connection was accepted, and the connection handler's outcome. -/
structure HandleOneOutcome where
  server : HandshakeServer
  accepted : Bool
  result : Except ConnectoError Unit
  sent : List Message
  store : AuthStore
deriving DecidableEq

/-- `HandshakeServer::handle_one` (protocol.rs:167-191): take the
listener (error when absent), accept one connection (its decoded line
stream is `clientInput`), and run `handle_client` on it. -/
def HandshakeServer.handleOne (s : HandshakeServer) (vcode sshUser : List Char)
    (store : AuthStore) (clientInput : List Message) : HandleOneOutcome :=
  match s.takeListener with
  | (s', .error e) => ⟨s', false, .error e, [], store⟩
  | (s', .ok _) =>
    let out := handleClient s.deviceName s.requireVerification vcode sshUser
      store clientInput
    ⟨s', true, out.result, out.sent, out.store⟩

/-- The observable start of `HandshakeServer::run` (protocol.rs:122-126):
the same take-or-fail step; on success `run` enters its accept loop. -/
def HandshakeServer.runStart (s : HandshakeServer) :
    HandshakeServer × Except ConnectoError Nat :=
  s.takeListener

/-- Outcome of `HandshakeClient::pair`: its return value and the messages
it wrote. -/
structure PairOutcome where
  result : Except ConnectoError PairingResult
  sent : List Message
deriving DecidableEq

/-- `HandshakeClient::pair` (protocol.rs:327-408).  `responses` is the
decoded sequence of lines the server sends. -/
def pair (deviceName : List Char) (kp : SshKeyPair) (responses : List Message) :
    PairOutcome :=
  let hello : Message := .Hello PROTOCOL_VERSION deviceName
  match responses with
  | [] => ⟨.error parseFailure, [hello]⟩
  | r1 :: rest1 =>
    match r1 with
    | .HelloAck version device_name verification_code =>
      if version ≠ PROTOCOL_VERSION then
        ⟨.error (.Handshake "Protocol version mismatch".data), [hello]⟩
      else
        let keyExchange : Message := .KeyExchange kp.public_key kp.comment
        match rest1 with
        | [] => ⟨.error parseFailure, [hello, keyExchange]⟩
        | r2 :: rest2 =>
          match r2 with
          | .KeyAccepted _ =>
            match rest2 with
            | [] => ⟨.error parseFailure, [hello, keyExchange]⟩
            | r3 :: _ =>
              match r3 with
              | .PairingComplete ssh_user =>
                ⟨.ok ⟨device_name, ssh_user, verification_code⟩,
                 [hello, keyExchange]⟩
              | _ =>
                ⟨.error (.Handshake "Expected PairingComplete".data),
                 [hello, keyExchange]⟩
          | .Error _ message =>
            ⟨.error (.Handshake message), [hello, keyExchange]⟩
          | _ =>
            ⟨.error (.Handshake "Expected KeyAccepted".data),
             [hello, keyExchange]⟩
    | .Error _ message => ⟨.error (.Handshake message), [hello]⟩
    | _ => ⟨.error (.Handshake "Unexpected response".data), [hello]⟩

/-! ## `sync.rs`: bidirectional sync state machine (lines 244-502)

`sync.rs` constructs and matches message variants `SyncHello`,
`SyncHelloAck`, `SyncComplete` and error variants `Protocol`, `Sync`,
`SyncRejected`, `SyncWithSelf` that the declared `Message` and
`ConnectoError` enums do not provide.  The sync state machine is embedded
against `MessageFull` / `ConnectoErrorFull`, whose extra constructors and
field lists are read off the `sync.rs` construction and pattern sites
themselves (sync.rs:261-268, 277-284, 315-318, 327, 391-397, 406-413,
439-446, 455, 470-473, and the error returns at 286, 292-294, 329-332,
337, 358-359, 399-401, 415, 457-459, 465, 499). -/

abbrev U64 := Fin 18446744073709551616

/-- The message union as required by the whole codebase: the six declared
variants plus the three sync variants `sync.rs` uses. -/
inductive MessageFull where
  | Hello (version : U32) (device_name : List Char)
  | HelloAck (version : U32) (device_name : List Char)
      (verification_code : Option (List Char))
  | KeyExchange (public_key : List Char) (comment : List Char)
  | KeyAccepted (message : List Char)
  | Error (code : U32) (message : List Char)
  | PairingComplete (ssh_user : List Char)
  | SyncHello (version : U32) (device_name : List Char)
      (initiator_priority : U64) (public_key : List Char)
      (key_comment : List Char) (ssh_user : List Char)
  | SyncHelloAck (version : U32) (device_name : List Char)
      (public_key : List Char) (key_comment : List Char)
      (ssh_user : List Char) (accept_sync : Bool)
  | SyncComplete (success : Bool) (message : List Char)
deriving DecidableEq

/-- The error type as required by the whole codebase: the eleven declared
variants plus the four `sync.rs` uses. -/
inductive ConnectoErrorFull where
  | Discovery (msg : List Char)
  | KeyGeneration (msg : List Char)
  | KeyParsing (msg : List Char)
  | Network (msg : List Char)
  | Handshake (msg : List Char)
  | Io (msg : List Char)
  | SshKey (msg : List Char)
  | Serialization (msg : List Char)
  | Timeout (msg : List Char)
  | DeviceNotFound (msg : List Char)
  | AuthorizedKeys (msg : List Char)
  | Protocol (msg : List Char)
  | Sync (msg : List Char)
  | SyncRejected (msg : List Char)
  | SyncWithSelf
deriving DecidableEq

/-- `sync.rs` `SyncResult` (lines 55-61); the peer address is kept as its
display string. -/
structure SyncResult where
  peer_name : List Char
  peer_user : List Char
  peer_address : List Char
  peer_port : Nat
deriving DecidableEq

/-- `SyncHandler` (sync.rs:89-93); the key manager state (the
authorized-keys file) is passed explicitly. -/
structure SyncHandler where
  deviceName : List Char
  keyPair : SshKeyPair
deriving DecidableEq

/-- Outcome of one sync role: return value, messages written, resulting
authorized-keys state. -/
structure SyncOutcome where
  result : Except ConnectoErrorFull SyncResult
  sent : List MessageFull
  store : AuthStore

/-- A failed `Message::from_json` on the sync path (exhausted peer stream
or malformed line). -/
def parseFailureFull : ConnectoErrorFull :=
  .Serialization "malformed message line".data

/-- `SyncHandler::handle_as_initiator` (sync.rs:244-361).  `ourPriority`
is the session's random `initiator_priority`, `sshUser` the OS user;
`peerAddr`/`peerPort` come from `stream.peer_addr()`; `responses` is the
decoded sequence of lines the responder sends. -/
def SyncHandler.handleAsInitiator (h : SyncHandler) (ourPriority : U64)
    (sshUser : List Char) (store : AuthStore) (peerAddr : List Char)
    (peerPort : Nat) (responses : List MessageFull) : SyncOutcome :=
  let syncHello : MessageFull :=
    .SyncHello PROTOCOL_VERSION h.deviceName ourPriority
      h.keyPair.public_key h.keyPair.comment sshUser
  match responses with
  | [] => ⟨.error parseFailureFull, [syncHello], store⟩
  | r1 :: rest1 =>
    match r1 with
    | .SyncHelloAck version peer_name peer_key _peer_comment peer_user accept_sync =>
      if version ≠ PROTOCOL_VERSION then
        ⟨.error (.Protocol "Protocol version mismatch".data), [syncHello], store⟩
      else if !accept_sync then
        ⟨.error (.SyncRejected "Peer declined sync".data), [syncHello], store⟩
      else
        let store' := addAuthorizedKey store peer_key
        let complete : MessageFull :=
          .SyncComplete true "Key exchange successful".data
        match rest1 with
        | [] => ⟨.error parseFailureFull, [syncHello, complete], store'⟩
        | r2 :: _ =>
          match r2 with
          | .SyncComplete success message =>
            if !success then
              ⟨.error (.Sync ("Peer reported failure: ".data ++ message)),
               [syncHello, complete], store'⟩
            else
              ⟨.ok ⟨peer_name, peer_user, peerAddr, peerPort⟩,
               [syncHello, complete], store'⟩
          | _ =>
            ⟨.error (.Protocol "Expected SyncComplete".data),
             [syncHello, complete], store'⟩
    | .Error _ message => ⟨.error (.Sync message), [syncHello], store⟩
    | _ => ⟨.error (.Protocol "Unexpected response".data), [syncHello], store⟩

/-- `SyncHandler::handle_as_responder` (sync.rs:364-502).  `input` is the
decoded sequence of lines the initiator sends. -/
def SyncHandler.handleAsResponder (h : SyncHandler) (ourPriority : U64)
    (sshUser : List Char) (store : AuthStore) (peerAddr : List Char)
    (peerPort : Nat) (input : List MessageFull) : SyncOutcome :=
  match input with
  | [] => ⟨.error parseFailureFull, [], store⟩
  | hello :: rest =>
    match hello with
    | .SyncHello version peer_name peer_priority peer_key _peer_comment peer_user =>
      if version ≠ PROTOCOL_VERSION then
        ⟨.error (.Protocol "Protocol version mismatch".data),
         [.Error 1 ("Protocol version mismatch: expected 1, got ".data ++
                    (Nat.repr version.val).data)], store⟩
      else if peer_name = h.deviceName ∧ peer_priority = ourPriority then
        ⟨.error .SyncWithSelf,
         [.SyncHelloAck PROTOCOL_VERSION h.deviceName [] [] [] false], store⟩
      else
        let store' := addAuthorizedKey store peer_key
        let ack : MessageFull :=
          .SyncHelloAck PROTOCOL_VERSION h.deviceName h.keyPair.public_key
            h.keyPair.comment sshUser true
        match rest with
        | [] => ⟨.error parseFailureFull, [ack], store'⟩
        | r2 :: _ =>
          match r2 with
          | .SyncComplete success message =>
            if !success then
              ⟨.error (.Sync ("Peer reported failure: ".data ++ message)),
               [ack], store'⟩
            else
              ⟨.ok ⟨peer_name, peer_user, peerAddr, peerPort⟩,
               [ack, .SyncComplete true "Key exchange successful".data],
               store'⟩
          | _ =>
            ⟨.error (.Protocol "Expected SyncComplete".data), [ack], store'⟩
    | _ =>
      ⟨.error (.Protocol "Expected SyncHello".data),
       [.Error 2 "Expected SyncHello message".data], store⟩

/-! ## The wire format: `Message::to_json` / `Message::from_json`

`to_json` is `serde_json::to_string` (compact JSON, internally tagged
with a `"type"` field, fields in declaration order) followed by `"\n"`;
`from_json` trims the line and runs `serde_json::from_str`.  The JSON
fragment the protocol uses — objects with string keys and string /
unsigned-integer / boolean / null values — is modelled by `Json` with a
verified compact printer and a fuelled parser.  The printer mirrors
serde_json's escaping (`\"`, `\\`, `\b`, `\t`, `\n`, `\f`, `\r`,
`\u00XX` for other control characters, everything else verbatim); the
parser accepts exactly one JSON value and mirrors serde's
internally-tagged decoding: tag and fields found by key, unknown fields
ignored, missing `Option` field defaults to `None`. -/

inductive Json where
  | str (s : List Char)
  | num (n : Nat)
  | bool (b : Bool)
  | null
  | obj (fields : List (List Char × Json))

/-- Lower-case hex digit (serde_json's `\u00XX` escapes). -/
def hexDigitChar (n : Nat) : Char :=
  if n < 10 then Char.ofNat (48 + n) else Char.ofNat (87 + n)

/-- serde_json's escaping of one character inside a JSON string. -/
def escapeChar (c : Char) : List Char :=
  if c = '"' then ['\\', '"']
  else if c = '\\' then ['\\', '\\']
  else if c = '\x08' then ['\\', 'b']
  else if c = '\t' then ['\\', 't']
  else if c = '\n' then ['\\', 'n']
  else if c = '\x0c' then ['\\', 'f']
  else if c = '\r' then ['\\', 'r']
  else if c.toNat < 32 then
    ['\\', 'u', '0', '0', hexDigitChar (c.toNat / 16), hexDigitChar (c.toNat % 16)]
  else [c]

/-- A JSON string literal: quote, escaped characters, quote. -/
def printString (s : List Char) : List Char :=
  '"' :: (s.map escapeChar).flatten ++ ['"']

/-- Decimal digits of a natural number, least significant first; the
fuel argument (any bound above the digit count, `n + 1` suffices) keeps
the recursion structural. -/
def natDigitsRevFuel : Nat → Nat → List Char
  | 0, _ => []
  | fuel + 1, n =>
    if n < 10 then [Char.ofNat (48 + n)]
    else Char.ofNat (48 + n % 10) :: natDigitsRevFuel fuel (n / 10)

/-- Decimal representation of a natural number. -/
def printNat (n : Nat) : List Char :=
  (natDigitsRevFuel (n + 1) n).reverse

/-- Compact (no whitespace) JSON printer, as `serde_json::to_string`;
`printFields` renders the comma-separated `"key":value` list inside an
object. -/
def printJson : Json → List Char
  | .str s => printString s
  | .num n => printNat n
  | .bool true => "true".data
  | .bool false => "false".data
  | .null => "null".data
  | .obj fields => '{' :: printFields fields ++ ['}']
where
  printFields : List (List Char × Json) → List Char
  | [] => []
  | [(k, v)] => printString k ++ ':' :: printJson v
  | (k, v) :: rest => printString k ++ ':' :: printJson v ++ ',' :: printFields rest

/-- Recursion fuel sufficient for the parser on a printed value (one unit
per `parseJson`/`parseFields` call). -/
def Json.need : Json → Nat
  | .obj fields => 1 + needFields fields
  | _ => 1
where
  needFields : List (List Char × Json) → Nat
  | [] => 0
  | (_, v) :: rest => 1 + max (Json.need v) (needFields rest)

/-- Hex digit value of a character, if any. -/
def parseHexDigitChar (c : Char) : Option Nat :=
  if '0' ≤ c ∧ c ≤ '9' then some (c.toNat - 48)
  else if 'a' ≤ c ∧ c ≤ 'f' then some (c.toNat - 87)
  else if 'A' ≤ c ∧ c ≤ 'F' then some (c.toNat - 55)
  else none

/-- Parse the body of a JSON string after the opening quote, up to and
including the closing quote; returns the decoded characters and the
remaining input.  Raw control characters are rejected, escape sequences
are decoded (`\uXXXX` only for valid scalar values). -/
def parseStringBody : List Char → Option (List Char × List Char)
  | [] => none
  | c :: rest =>
    if c = '"' then some ([], rest)
    else if c = '\\' then
      match rest with
      | [] => none
      | e :: r =>
        if e = '"' ∨ e = '\\' ∨ e = '/' then
          (parseStringBody r).map (fun p => (e :: p.1, p.2))
        else if e = 'b' then (parseStringBody r).map (fun p => ('\x08' :: p.1, p.2))
        else if e = 't' then (parseStringBody r).map (fun p => ('\t' :: p.1, p.2))
        else if e = 'n' then (parseStringBody r).map (fun p => ('\n' :: p.1, p.2))
        else if e = 'f' then (parseStringBody r).map (fun p => ('\x0c' :: p.1, p.2))
        else if e = 'r' then (parseStringBody r).map (fun p => ('\r' :: p.1, p.2))
        else if e = 'u' then
          match r with
          | h1 :: h2 :: h3 :: h4 :: r2 =>
            match parseHexDigitChar h1, parseHexDigitChar h2,
                  parseHexDigitChar h3, parseHexDigitChar h4 with
            | some a, some b, some c2, some d =>
              let n := ((a * 16 + b) * 16 + c2) * 16 + d
              if n < 55296 ∨ (57344 ≤ n ∧ n < 1114112) then
                (parseStringBody r2).map (fun p => (Char.ofNat n :: p.1, p.2))
              else none
            | _, _, _, _ => none
          | _ => none
        else none
    else if c.toNat < 32 then none
    else (parseStringBody rest).map (fun p => (c :: p.1, p.2))

/-- Consume a run of decimal digits, accumulating their value. -/
def parseNatAux : List Char → Nat → Nat × List Char
  | [], acc => (acc, [])
  | c :: rest, acc =>
    if c.isDigit then parseNatAux rest (acc * 10 + (c.toNat - 48))
    else (acc, c :: rest)

/-- Parse a JSON unsigned integer (no leading zeros, no sign, no
fraction/exponent — the fragment the protocol's `u32`/`u64` fields use). -/
def parseNumber (l : List Char) : Option (Nat × List Char) :=
  match l with
  | [] => none
  | c :: rest =>
    if c = '0' then
      match rest with
      | c2 :: _ => if c2.isDigit then none else some (0, rest)
      | [] => some (0, [])
    else if c.isDigit then some (parseNatAux rest (c.toNat - 48)) else none

mutual

/-- Fuelled parser for one JSON value. -/
def parseJson : Nat → List Char → Option (Json × List Char)
  | 0, _ => none
  | _ + 1, [] => none
  | fuel + 1, c :: rest =>
    if c = '"' then (parseStringBody rest).map (fun p => (Json.str p.1, p.2))
    else if c = '{' then
      match rest with
      | '}' :: r => some (.obj [], r)
      | _ => (parseFields fuel rest).map (fun p => (Json.obj p.1, p.2))
    else if c = 't' then
      match rest with
      | 'r' :: 'u' :: 'e' :: r => some (.bool true, r)
      | _ => none
    else if c = 'f' then
      match rest with
      | 'a' :: 'l' :: 's' :: 'e' :: r => some (.bool false, r)
      | _ => none
    else if c = 'n' then
      match rest with
      | 'u' :: 'l' :: 'l' :: r => some (.null, r)
      | _ => none
    else (parseNumber (c :: rest)).map (fun p => (Json.num p.1, p.2))

/-- Fuelled parser for the nonempty field list of an object, consuming
the closing brace. -/
def parseFields : Nat → List Char → Option (List (List Char × Json) × List Char)
  | 0, _ => none
  | fuel + 1, l =>
    match l with
    | '"' :: rest =>
      match parseStringBody rest with
      | none => none
      | some (key, r1) =>
        match r1 with
        | ':' :: r2 =>
          match parseJson fuel r2 with
          | none => none
          | some (v, r3) =>
            match r3 with
            | ',' :: r4 => (parseFields fuel r4).map (fun p => ((key, v) :: p.1, p.2))
            | '}' :: r4 => some ([(key, v)], r4)
            | _ => none
        | _ => none
    | _ => none

end

/-- serde's internally-tagged encoding of a declared `Message`: a `type`
discriminator then the variant's fields in declaration order
(`#[serde(tag = "type")]`, protocol.rs:20). -/
def Message.toJsonValue : Message → Json
  | .Hello version device_name =>
    .obj [("type".data, .str "Hello".data),
          ("version".data, .num version.val),
          ("device_name".data, .str device_name)]
  | .HelloAck version device_name verification_code =>
    .obj [("type".data, .str "HelloAck".data),
          ("version".data, .num version.val),
          ("device_name".data, .str device_name),
          ("verification_code".data,
           match verification_code with
           | some s => .str s
           | none => .null)]
  | .KeyExchange public_key comment =>
    .obj [("type".data, .str "KeyExchange".data),
          ("public_key".data, .str public_key),
          ("comment".data, .str comment)]
  | .KeyAccepted message =>
    .obj [("type".data, .str "KeyAccepted".data),
          ("message".data, .str message)]
  | .Error code message =>
    .obj [("type".data, .str "Error".data),
          ("code".data, .num code.val),
          ("message".data, .str message)]
  | .PairingComplete ssh_user =>
    .obj [("type".data, .str "PairingComplete".data),
          ("ssh_user".data, .str ssh_user)]

/-- A required string field (serde: first entry with that key). -/
def getStrField (fields : List (List Char × Json)) (key : List Char) :
    Option (List Char) :=
  match List.lookup key fields with
  | some (.str s) => some s
  | _ => none

/-- A required `u32` field (serde rejects out-of-range numbers). -/
def getU32Field (fields : List (List Char × Json)) (key : List Char) :
    Option U32 :=
  match List.lookup key fields with
  | some (.num n) => if h : n < 4294967296 then some ⟨n, h⟩ else none
  | _ => none

/-- An `Option<String>` field: missing or `null` is `None`. -/
def getOptStrField (fields : List (List Char × Json)) (key : List Char) :
    Option (Option (List Char)) :=
  match List.lookup key fields with
  | some (.str s) => some (some s)
  | some .null => some none
  | none => some none
  | some _ => none

/-- serde's internally-tagged decoding of a declared `Message`. -/
def Message.fromJsonValue (j : Json) : Option Message :=
  match j with
  | .obj fields =>
    match getStrField fields "type".data with
    | none => none
    | some tag =>
      if tag = "Hello".data then
        match getU32Field fields "version".data,
              getStrField fields "device_name".data with
        | some v, some n => some (.Hello v n)
        | _, _ => none
      else if tag = "HelloAck".data then
        match getU32Field fields "version".data,
              getStrField fields "device_name".data,
              getOptStrField fields "verification_code".data with
        | some v, some n, some vc => some (.HelloAck v n vc)
        | _, _, _ => none
      else if tag = "KeyExchange".data then
        match getStrField fields "public_key".data,
              getStrField fields "comment".data with
        | some pk, some c => some (.KeyExchange pk c)
        | _, _ => none
      else if tag = "KeyAccepted".data then
        match getStrField fields "message".data with
        | some m => some (.KeyAccepted m)
        | none => none
      else if tag = "Error".data then
        match getU32Field fields "code".data,
              getStrField fields "message".data with
        | some c, some m => some (.Error c m)
        | _, _ => none
      else if tag = "PairingComplete".data then
        match getStrField fields "ssh_user".data with
        | some u => some (.PairingComplete u)
        | none => none
      else none
  | _ => none

/-- `Message::to_json` (protocol.rs:60-63): compact JSON plus `"\n"`. -/
def toWire (m : Message) : List Char :=
  printJson m.toJsonValue ++ ['\n']

/-- `Message::from_json` (protocol.rs:66-68): trim the line, parse one
JSON value covering the whole remainder, decode the tagged union. -/
def fromWire (l : List Char) : Except ConnectoError Message :=
  let t := rustTrim l
  match parseJson (t.length + 1) t with
  | some (j, []) =>
    match Message.fromJsonValue j with
    | some m => .ok m
    | none => .error parseFailure
  | _ => .error parseFailure

/-! # Theorems

## Infrastructure: substring search, whitespace splitting, lines -/

theorem isInfixOfList_iff {needle haystack : List Char} :
    isInfixOfList needle haystack = true ↔ needle <:+: haystack := by
  induction haystack with
  | nil =>
    simp [isInfixOfList, List.isPrefixOf_iff_prefix]
  | cons a t ih =>
    rw [isInfixOfList]
    simp only [Bool.or_eq_true, List.isPrefixOf_iff_prefix, ih,
      List.infix_cons_iff]

theorem IsPrefix_cons {a : Char} {l₁ l₂ : List Char} (h : l₁ <+: l₂) :
    a :: l₁ <+: a :: l₂ := by
  obtain ⟨t, rfl⟩ := h
  exact ⟨t, rfl⟩

theorem splitOnP_head_pre {p : Char → Bool} :
    ∀ (l h : List Char) (t : List (List Char)),
      l.splitOnP p = h :: t → h <+: l := by
  intro l
  induction l with
  | nil =>
    intro h t hs
    rw [List.splitOnP_nil] at hs
    cases hs
    exact List.nil_prefix
  | cons a l ih =>
    intro h t hs
    rw [List.splitOnP_cons] at hs
    by_cases hp : p a
    · rw [if_pos hp] at hs
      cases hs
      exact List.nil_prefix
    · rw [if_neg hp] at hs
      cases hsl : l.splitOnP p with
      | nil => exact absurd hsl (List.splitOnP_ne_nil p l)
      | cons h0 t0 =>
        rw [hsl] at hs
        simp only [List.modifyHead] at hs
        cases hs
        exact IsPrefix_cons (ih h0 _ hsl)

theorem mem_splitOnP_inf {p : Char → Bool} :
    ∀ (l m : List Char), m ∈ l.splitOnP p → m <:+: l := by
  intro l
  induction l with
  | nil =>
    intro m hm
    rw [List.splitOnP_nil] at hm
    simp at hm
    simp [hm]
  | cons a l ih =>
    intro m hm
    rw [List.splitOnP_cons] at hm
    by_cases hp : p a
    · rw [if_pos hp] at hm
      rcases List.mem_cons.mp hm with h | h
      · simp [h]
      · exact List.infix_cons (ih m h)
    · rw [if_neg hp] at hm
      cases hsl : l.splitOnP p with
      | nil => exact absurd hsl (List.splitOnP_ne_nil p l)
      | cons h0 t0 =>
        rw [hsl] at hm
        simp only [List.modifyHead] at hm
        rcases List.mem_cons.mp hm with h | h
        · subst h
          exact (IsPrefix_cons (splitOnP_head_pre l h0 _ hsl)).isInfix
        · exact List.infix_cons (ih m (hsl ▸ List.mem_cons_of_mem h0 h))

theorem mem_rustLines_inf {m c : List Char} (hm : m ∈ rustLines c) :
    m <:+: c := by
  unfold rustLines at hm
  simp only [List.mem_map] at hm
  obtain ⟨m', hm', rfl⟩ := hm
  have hmem : m' ∈ c.splitOn '\n' := by
    by_cases h : (c.splitOn '\n').getLast? = some []
    · rw [if_pos h] at hm'
      exact List.dropLast_subset _ hm'
    · rw [if_neg h] at hm'
      exact hm'
  have hinf : m' <:+: c := mem_splitOnP_inf c m' hmem
  by_cases h2 : m'.getLast? = some '\r'
  · rw [if_pos h2]
    exact (List.dropLast_prefix m').isInfix.trans hinf
  · rw [if_neg h2]
    exact hinf

theorem splitWhitespace_cons_ws {c : Char} (rest : List Char)
    (h : rustIsWhitespace c = true) :
    splitWhitespace (c :: rest) = splitWhitespace rest := by
  conv_lhs => unfold splitWhitespace
  rw [h]
  simp

theorem splitWhitespace_singleton {c : Char} (h : rustIsWhitespace c = false) :
    splitWhitespace [c] = [[c]] := by
  conv_lhs => unfold splitWhitespace
  rw [h]
  simp [splitWhitespace]

theorem splitWhitespace_cons_cons {c r : Char} (rest : List Char)
    (hc : rustIsWhitespace c = false) :
    splitWhitespace (c :: r :: rest) =
      match splitWhitespace (r :: rest) with
      | [] => [[c]]
      | w :: ws =>
        if rustIsWhitespace r then [c] :: w :: ws else (c :: w) :: ws := by
  conv_lhs => unfold splitWhitespace
  rw [hc]
  cases hsw : splitWhitespace (r :: rest) <;> simp

theorem splitWhitespace_cons_head {c : Char} (hc : rustIsWhitespace c = false) :
    ∀ rest : List Char, ∃ h t,
      splitWhitespace (c :: rest) = (c :: h) :: t ∧ h <+: rest := by
  intro rest
  induction rest generalizing c with
  | nil =>
    exact ⟨[], [], splitWhitespace_singleton hc, List.nil_prefix⟩
  | cons r rest ih =>
    rw [splitWhitespace_cons_cons rest hc]
    by_cases hr : rustIsWhitespace r
    · cases hsw : splitWhitespace (r :: rest) with
      | nil => exact ⟨[], [], by simp, List.nil_prefix⟩
      | cons w ws => exact ⟨[], w :: ws, by simp [hr], List.nil_prefix⟩
    · have hr' : rustIsWhitespace r = false := by simpa using hr
      obtain ⟨h, t, hsw, hpre⟩ := ih hr'
      rw [hsw]
      exact ⟨r :: h, t, by simp [hr'], IsPrefix_cons hpre⟩

theorem mem_splitWhitespace_inf :
    ∀ (l w : List Char), w ∈ splitWhitespace l → w <:+: l := by
  intro l
  induction l with
  | nil => intro w hw; simp [splitWhitespace] at hw
  | cons c rest ih =>
    intro w hw
    by_cases hc : rustIsWhitespace c
    · rw [splitWhitespace_cons_ws rest hc] at hw
      exact List.infix_cons (ih w hw)
    · have hc' : rustIsWhitespace c = false := by simpa using hc
      cases rest with
      | nil =>
        rw [splitWhitespace_singleton hc'] at hw
        simp only [List.mem_singleton] at hw
        simp [hw]
      | cons r rest' =>
        rw [splitWhitespace_cons_cons rest' hc'] at hw
        cases hsw : splitWhitespace (r :: rest') with
        | nil =>
          rw [hsw] at hw
          simp only [List.mem_singleton] at hw
          subst hw
          exact (IsPrefix_cons List.nil_prefix).isInfix
        | cons w0 ws0 =>
          rw [hsw] at hw
          by_cases hr : rustIsWhitespace r
          · simp only [hr, if_true] at hw
            rcases List.mem_cons.mp hw with hww | hww
            · subst hww
              exact (IsPrefix_cons List.nil_prefix).isInfix
            · exact List.infix_cons (ih w (hsw ▸ hww))
          · have hr' : rustIsWhitespace r = false := by simpa using hr
            simp only [hr', Bool.false_eq_true, if_false] at hw
            rcases List.mem_cons.mp hw with hww | hww
            · subst hww
              obtain ⟨h, t, hsw2, hpre⟩ := splitWhitespace_cons_head hr' rest'
              rw [hsw] at hsw2
              cases hsw2
              exact (IsPrefix_cons (IsPrefix_cons hpre)).isInfix
            · exact List.infix_cons
                (ih w (hsw ▸ List.mem_cons_of_mem w0 hww))

theorem splitWhitespace_getD_inf {pk : List Char}
    (h : 2 ≤ (splitWhitespace pk).length) :
    (splitWhitespace pk).getD 1 [] <:+: pk := by
  apply mem_splitWhitespace_inf
  rw [List.getD_eq_getElem _ _ (by omega)]
  exact List.getElem_mem _

theorem splitOnP_cons_ne_singleton_nil {p : Char → Bool} (b : Char)
    (t : List Char) : (b :: t).splitOnP p ≠ [[]] := by
  rw [List.splitOnP_cons]
  by_cases hp : p b
  · rw [if_pos hp]
    intro h
    have := List.splitOnP_ne_nil p t
    simp at h
    exact this h
  · rw [if_neg hp]
    cases hsl : t.splitOnP p with
    | nil => exact absurd hsl (List.splitOnP_ne_nil p t)
    | cons h0 t0 => simp

theorem splitOn_cons (x : Char) (xs : List Char) :
    (x :: xs).splitOn '\n' =
      if x = '\n' then [] :: xs.splitOn '\n'
      else (xs.splitOn '\n').modifyHead (List.cons x) := by
  show (x :: xs).splitOnP (· == '\n') = _
  rw [List.splitOnP_cons]
  by_cases hx : x = '\n'
  · rw [if_pos (by simpa using hx), if_pos hx]
    rfl
  · rw [if_neg (by simpa using hx), if_neg hx]
    rfl

theorem splitOn_terminated_getLast :
    ∀ c : List Char, c ≠ [] → c.getLast? = some '\n' →
      (c.splitOn '\n').getLast? = some [] := by
  intro c
  induction c with
  | nil => intro h; exact absurd rfl h
  | cons a c ih =>
    intro _ hlast
    cases c with
    | nil =>
      rw [List.getLast?_singleton] at hlast
      cases hlast
      decide
    | cons b t =>
      rw [List.getLast?_cons_cons] at hlast
      have ihl := ih (by simp) hlast
      rw [splitOn_cons]
      by_cases ha : a = '\n'
      · rw [if_pos ha]
        cases hsl : (b :: t).splitOn '\n' with
        | nil => exact absurd hsl (List.splitOnP_ne_nil _ _)
        | cons h0 t0 =>
          rw [hsl] at ihl
          simpa using ihl
      · rw [if_neg ha]
        cases hsl : (b :: t).splitOn '\n' with
        | nil => exact absurd hsl (List.splitOnP_ne_nil _ _)
        | cons h0 t0 =>
          rw [hsl] at ihl
          cases t0 with
          | nil =>
            exfalso
            simp only [List.getLast?_singleton, Option.some_inj] at ihl
            exact @splitOnP_cons_ne_singleton_nil (· == '\n') b t
              (by rw [ihl] at hsl; exact hsl)
          | cons u us =>
            simpa using ihl

theorem splitOn_terminated_append (c d : List Char)
    (hc : c = [] ∨ c.getLast? = some '\n') :
    (c ++ d).splitOn '\n' = (c.splitOn '\n').dropLast ++ d.splitOn '\n' := by
  induction c with
  | nil => simp
  | cons a c ih =>
    rcases hc with hc | hc
    · cases hc
    cases c with
    | nil =>
      rw [List.getLast?_singleton] at hc
      cases hc
      rw [show (['\n'] : List Char) ++ d = '\n' :: d from rfl,
        splitOn_cons, if_pos rfl,
        show (['\n'] : List Char).splitOn '\n' = [[], []] by decide]
      simp
    | cons b t =>
      rw [List.getLast?_cons_cons] at hc
      have iheq := ih (Or.inr hc)
      have hlast := splitOn_terminated_getLast (b :: t) (by simp) hc
      rw [show (a :: b :: t) ++ d = a :: ((b :: t) ++ d) from rfl,
        splitOn_cons a ((b :: t) ++ d), splitOn_cons a (b :: t), iheq]
      by_cases ha : a = '\n'
      · rw [if_pos ha, if_pos ha]
        cases hsl : (b :: t).splitOn '\n' with
        | nil => exact absurd hsl (List.splitOnP_ne_nil _ _)
        | cons h0 t0 =>
          cases t0 <;> simp
      · rw [if_neg ha, if_neg ha]
        cases hsl : (b :: t).splitOn '\n' with
        | nil => exact absurd hsl (List.splitOnP_ne_nil _ _)
        | cons h0 t0 =>
          rw [hsl] at hlast
          cases t0 with
          | nil =>
            exfalso
            simp only [List.getLast?_singleton, Option.some_inj] at hlast
            exact @splitOnP_cons_ne_singleton_nil (· == '\n') b t
              (by rw [hlast] at hsl; exact hsl)
          | cons u us =>
            simp

theorem splitOn_no_sep_concat (pk : List Char) (h1 : '\n' ∉ pk) :
    (pk ++ ['\n']).splitOn '\n' = [pk, []] := by
  show (pk ++ '\n' :: []).splitOnP (· == '\n') = [pk, []]
  rw [List.splitOnP_first (· == '\n') pk
    (fun x hx => by simp [ne_of_mem_of_not_mem hx h1]) '\n' (by simp) []]
  rfl

theorem rustLines_terminated_append (c pk : List Char)
    (hc : c = [] ∨ c.getLast? = some '\n') (h1 : '\n' ∉ pk)
    (h2 : pk.getLast? ≠ some '\r') :
    rustLines (c ++ (pk ++ ['\n'])) = rustLines c ++ [pk] := by
  have hsplit : (c ++ (pk ++ ['\n'])).splitOn '\n' =
      (c.splitOn '\n').dropLast ++ [pk, []] := by
    rw [splitOn_terminated_append c (pk ++ ['\n']) hc,
      splitOn_no_sep_concat pk h1]
  have hstrip : (if pk.getLast? = some '\r' then pk.dropLast else pk) = pk :=
    if_neg h2
  simp only [rustLines]
  rw [hsplit]
  have hlast2 : ((c.splitOn '\n').dropLast ++ [pk, []]).getLast? = some [] := by
    rw [show (c.splitOn '\n').dropLast ++ [pk, []] =
        ((c.splitOn '\n').dropLast ++ [pk]) ++ [[]] by simp]
    exact List.getLast?_concat _
  rw [if_pos hlast2]
  have hdrop : ((c.splitOn '\n').dropLast ++ [pk, []]).dropLast =
      (c.splitOn '\n').dropLast ++ [pk] := by
    rw [show (c.splitOn '\n').dropLast ++ [pk, []] =
        ((c.splitOn '\n').dropLast ++ [pk]) ++ [[]] by simp]
    exact List.dropLast_concat
  rw [hdrop, List.map_append]
  have hmain : List.map
      (fun l => if l.getLast? = some '\r' then l.dropLast else l)
      (c.splitOn '\n').dropLast =
      rustLines c := by
    simp only [rustLines]
    rcases hc with hc | hc
    · subst hc
      decide
    · have hne : c ≠ [] := by
        intro h
        rw [h] at hc
        simp at hc
      rw [if_pos (splitOn_terminated_getLast c hne hc)]
  rw [hmain]
  simp only [rustLines]
  simp [hstrip]

/-! ## Unfolding lemmas for `add_authorized_key` -/

theorem rustContains_of_inf {h n : List Char} (hin : n <:+: h) :
    rustContains h n = true :=
  isInfixOfList_iff.mpr hin

theorem addAuthorizedKey_none (pk : List Char) :
    addAuthorizedKey none pk = some (pk ++ ['\n']) := rfl

theorem addAuthorizedKey_some_skip {c pk : List Char}
    (h : (splitWhitespace pk).length < 2) :
    addAuthorizedKey (some c) pk = some (c ++ pk ++ ['\n']) := by
  simp [addAuthorizedKey, show ¬(2 ≤ (splitWhitespace pk).length) by omega]

theorem addAuthorizedKey_some_notfound {c pk : List Char}
    (h : rustContains c ((splitWhitespace pk).getD 1 []) = false) :
    addAuthorizedKey (some c) pk = some (c ++ pk ++ ['\n']) := by
  simp only [addAuthorizedKey]
  by_cases hl : 2 ≤ (splitWhitespace pk).length
  · rw [if_pos hl, h]
    simp
  · rw [if_neg hl]
    simp

theorem addAuthorizedKey_some_found {c pk : List Char}
    (hl : 2 ≤ (splitWhitespace pk).length)
    (h : rustContains c ((splitWhitespace pk).getD 1 []) = true) :
    addAuthorizedKey (some c) pk = some c := by
  simp only [addAuthorizedKey]
  rw [if_pos hl, h]
  simp

/-- **C10**: `add_authorized_key` decides "already present" by substring
search of the key's second whitespace-separated field in the whole existing
content: (a) with at least two fields the call is a no-op exactly when the
data field occurs as a substring, otherwise it appends; (b) with fewer
than two fields the duplicate check is skipped and a second add duplicates
the line; (c) a key whose data field occurs inside any existing line is
treated as present and not appended. -/
theorem C10_dup_check_is_substring_of_second_field :
    (∀ c pk, 2 ≤ (splitWhitespace pk).length →
        addAuthorizedKey (some c) pk =
          if rustContains c ((splitWhitespace pk).getD 1 []) then some c
          else some (c ++ pk ++ ['\n'])) ∧
    (∀ c pk, (splitWhitespace pk).length < 2 →
        addAuthorizedKey (some c) pk = some (c ++ pk ++ ['\n']) ∧
        addAuthorizedKey (addAuthorizedKey (some c) pk) pk =
          some (c ++ pk ++ ['\n'] ++ pk ++ ['\n'])) ∧
    (∀ c pk, 2 ≤ (splitWhitespace pk).length →
        rustContains c ((splitWhitespace pk).getD 1 []) = true →
        addAuthorizedKey (some c) pk = some c) := by
  refine ⟨fun c pk hl => ?_, fun c pk hl => ?_, fun c pk hl hc => ?_⟩
  · cases hcon : rustContains c ((splitWhitespace pk).getD 1 []) with
    | false => rw [addAuthorizedKey_some_notfound hcon]; simp
    | true => rw [addAuthorizedKey_some_found hl hcon]; simp
  · refine ⟨addAuthorizedKey_some_skip hl, ?_⟩
    rw [addAuthorizedKey_some_skip hl, addAuthorizedKey_some_skip hl]
  · exact addAuthorizedKey_some_found hl hc

theorem C10_witness :
    addAuthorizedKey (some "k1 AAAAB x\n".data) "ssh-rsa AAAA t@c".data =
      some "k1 AAAAB x\n".data ∧
    addAuthorizedKey (addAuthorizedKey (some []) "abc".data) "abc".data =
      some (([] : List Char) ++ "abc".data ++ ['\n'] ++ "abc".data ++ ['\n']) :=
  ⟨C10_dup_check_is_substring_of_second_field.2.2 "k1 AAAAB x\n".data
      "ssh-rsa AAAA t@c".data (by decide) (by decide),
   (C10_dup_check_is_substring_of_second_field.2.1 [] "abc".data
      (by decide)).2⟩

/-- **C8** (counterexample): for the one-field key line `"abc"` starting
from an absent file, the second `add_authorized_key` call is not a no-op
and the file ends with two stored entries for the key, refuting the
claim's universal idempotence. -/
theorem C8_counterexample :
    addAuthorizedKey (addAuthorizedKey none "abc".data) "abc".data ≠
        addAuthorizedKey none "abc".data ∧
    addAuthorizedKey (addAuthorizedKey none "abc".data) "abc".data =
      some "abc\nabc\n".data ∧
    entryCount (addAuthorizedKey (addAuthorizedKey none "abc".data)
      "abc".data) "abc".data = 2 := by
  refine ⟨by decide, by decide, by decide⟩

/-- **C8** (amended): for a public key line with at least two
whitespace-separated fields, containing no newline and not ending in a
carriage return, starting from an authorized-keys state whose content is
empty/absent or newline-terminated and does not already contain the key's
data field, adding the key twice stores exactly one entry for it: the
first call appends the line, the second is a no-op returning success. -/
theorem C8_add_twice_single_entry_amended (store : AuthStore)
    (pk : List Char)
    (hfields : 2 ≤ (splitWhitespace pk).length)
    (hline : '\n' ∉ pk)
    (hcr : pk.getLast? ≠ some '\r')
    (hterm : contentOf store = [] ∨ (contentOf store).getLast? = some '\n')
    (hfresh : rustContains (contentOf store)
      ((splitWhitespace pk).getD 1 []) = false) :
    addAuthorizedKey store pk = some (contentOf store ++ pk ++ ['\n']) ∧
    addAuthorizedKey (addAuthorizedKey store pk) pk =
      addAuthorizedKey store pk ∧
    entryCount (addAuthorizedKey store pk) pk = 1 := by
  have hstep1 : addAuthorizedKey store pk =
      some (contentOf store ++ pk ++ ['\n']) := by
    cases store with
    | none => rfl
    | some c => exact addAuthorizedKey_some_notfound hfresh
  have hfieldpk : (splitWhitespace pk).getD 1 [] <:+: pk :=
    splitWhitespace_getD_inf hfields
  have hpk_in : pk <:+: contentOf store ++ pk ++ ['\n'] :=
    ⟨contentOf store, ['\n'], rfl⟩
  have hstep2 : addAuthorizedKey (some (contentOf store ++ pk ++ ['\n'])) pk =
      some (contentOf store ++ pk ++ ['\n']) :=
    addAuthorizedKey_some_found hfields
      (rustContains_of_inf (hfieldpk.trans hpk_in))
  have hlines : rustLines (contentOf store ++ pk ++ ['\n']) =
      rustLines (contentOf store) ++ [pk] := by
    have := rustLines_terminated_append (contentOf store) pk hterm hline hcr
    simpa [List.append_assoc] using this
  have hnotmem : pk ∉ rustLines (contentOf store) := by
    intro hmem
    have hich : (splitWhitespace pk).getD 1 [] <:+: contentOf store :=
      hfieldpk.trans (mem_rustLines_inf hmem)
    rw [rustContains_of_inf hich] at hfresh
    cases hfresh
  refine ⟨hstep1, by rw [hstep1]; exact hstep2, ?_⟩
  rw [hstep1]
  simp only [entryCount, hlines, List.count_append]
  rw [List.count_eq_zero.mpr hnotmem]
  simp

theorem C8_amended_witness :
    addAuthorizedKey (addAuthorizedKey none "ssh-ed25519 AAAA t@c".data)
        "ssh-ed25519 AAAA t@c".data =
      addAuthorizedKey none "ssh-ed25519 AAAA t@c".data ∧
    entryCount (addAuthorizedKey none "ssh-ed25519 AAAA t@c".data)
      "ssh-ed25519 AAAA t@c".data = 1 :=
  ⟨(C8_add_twice_single_entry_amended none "ssh-ed25519 AAAA t@c".data
      (by decide) (by decide) (by decide) (by decide) (by decide)).2.1,
   (C8_add_twice_single_entry_amended none "ssh-ed25519 AAAA t@c".data
      (by decide) (by decide) (by decide) (by decide) (by decide)).2.2⟩

/-- **C5**: the `ConnectoError` enum declared in `error.rs` has no
`Protocol`, `Sync`, `SyncRejected` or `SyncWithSelf` variant, although
`sync.rs` returns all four — the spec's taxonomy names categories the
declared type cannot represent, so the declaration is the slip. -/
theorem C5_declared_error_enum_lacks_protocol_and_sync (e : ConnectoError) :
    e.variantName ≠ "Protocol".data ∧ e.variantName ≠ "Sync".data ∧
    e.variantName ≠ "SyncRejected".data ∧
    e.variantName ≠ "SyncWithSelf".data := by
  cases e <;>
    exact ⟨by simp only [ConnectoError.variantName]; decide,
      by simp only [ConnectoError.variantName]; decide,
      by simp only [ConnectoError.variantName]; decide,
      by simp only [ConnectoError.variantName]; decide⟩

/-- **C4**: the `Message` enum declared in `protocol.rs` consists of the
six one-way-pairing variants only; no value of it carries a `SyncHello`,
`SyncHelloAck` or `SyncComplete` tag, although `sync.rs` constructs those
variants — the sync messages are not constructible from the declared
union. -/
theorem C4_declared_message_union_lacks_sync_variants (m : Message) :
    (m.tag = "Hello".data ∨ m.tag = "HelloAck".data ∨
     m.tag = "KeyExchange".data ∨ m.tag = "KeyAccepted".data ∨
     m.tag = "Error".data ∨ m.tag = "PairingComplete".data) ∧
    m.tag ≠ "SyncHello".data ∧ m.tag ≠ "SyncHelloAck".data ∧
    m.tag ≠ "SyncComplete".data := by
  cases m <;>
    exact ⟨by simp [Message.tag],
      by simp only [Message.tag]; decide,
      by simp only [Message.tag]; decide,
      by simp only [Message.tag]; decide⟩

/-- **C9**: `run` and `handle_one` take the stored listener; when none is
held they fail with `Network("Server not started")` before accepting
anything, and any `handle_one`/`run` call leaves the listener consumed, so
only a fresh successful `listen` (which stores one) can precede each such
call. -/
theorem C9_run_and_handle_one_require_listener :
    (∀ (s : HandshakeServer) vcode sshUser store input,
        s.listener = none →
          (s.handleOne vcode sshUser store input).result =
            .error (.Network "Server not started".data) ∧
          (s.handleOne vcode sshUser store input).accepted = false ∧
          (s.handleOne vcode sshUser store input).store = store ∧
          (s.handleOne vcode sshUser store input).sent = []) ∧
    (∀ s : HandshakeServer, s.listener = none →
        s.runStart.2 = .error (.Network "Server not started".data)) ∧
    (∀ (s : HandshakeServer) vcode sshUser store input,
        (s.handleOne vcode sshUser store input).server.listener = none) ∧
    (∀ s : HandshakeServer, s.runStart.1.listener = none) ∧
    (∀ (s : HandshakeServer) l, (s.listenOk l).listener = some l) := by
  refine ⟨fun s vcode sshUser store input h => ?_, fun s h => ?_,
    fun s vcode sshUser store input => ?_, fun s => ?_, fun s l => rfl⟩
  · simp [HandshakeServer.handleOne, HandshakeServer.takeListener, h]
  · simp [HandshakeServer.runStart, HandshakeServer.takeListener, h]
  · cases hl : s.listener <;>
      simp [HandshakeServer.handleOne, HandshakeServer.takeListener, hl]
  · simp [HandshakeServer.runStart, HandshakeServer.takeListener]

theorem C9_witness :
    ((⟨none, "Server".data, false⟩ : HandshakeServer).handleOne
        "0000".data "user".data none []).result =
      .error (.Network "Server not started".data) ∧
    ((⟨none, "Server".data, false⟩ : HandshakeServer).handleOne
        "0000".data "user".data none []).accepted = false :=
  ⟨(C9_run_and_handle_one_require_listener.1 _ _ _ _ _ rfl).1,
   (C9_run_and_handle_one_require_listener.1 _ _ _ _ _ rfl).2.1⟩

/-! ## Claims about the sync state machine (C6, C2) -/

theorem listAuthorizedKeys_single (pk : List Char) (h1 : '\n' ∉ pk)
    (h2 : pk.getLast? ≠ some '\r') (h3 : rustTrim pk ≠ [])
    (h4 : pk.head? ≠ some '#') :
    listAuthorizedKeys (some (pk ++ ['\n'])) = [pk] := by
  have hlines : rustLines (pk ++ ['\n']) = [pk] := by
    have h := rustLines_terminated_append [] pk (Or.inl rfl) h1 h2
    rw [show ([] : List Char) ++ (pk ++ ['\n']) = pk ++ ['\n'] from rfl] at h
    rw [h]
    rfl
  simp only [listAuthorizedKeys, hlines, List.filter]
  rw [show (!(rustTrim pk).isEmpty && !(pk.head? = some '#')) = true by
    simp [List.isEmpty_iff, h3, h4]]

/-- **C6**: on `SyncHello` whose name and priority both equal the
responder's own, the responder answers `SyncHelloAck` with
`accept_sync = false`, installs nothing, and fails with the distinct
`SyncWithSelf` error; if the name or the priority differs it installs the
peer's key and answers an accepting `SyncHelloAck`. -/
theorem C6_responder_self_sync_detection (h : SyncHandler)
    (ourPriority : U64) (sshUser : List Char) (store : AuthStore)
    (peerAddr : List Char) (peerPort : Nat) :
    (∀ (peer_key peer_comment peer_user : List Char)
        (rest : List MessageFull),
      (h.handleAsResponder ourPriority sshUser store peerAddr peerPort
          (.SyncHello PROTOCOL_VERSION h.deviceName ourPriority peer_key
            peer_comment peer_user :: rest)).result =
        .error .SyncWithSelf ∧
      (h.handleAsResponder ourPriority sshUser store peerAddr peerPort
          (.SyncHello PROTOCOL_VERSION h.deviceName ourPriority peer_key
            peer_comment peer_user :: rest)).sent =
        [.SyncHelloAck PROTOCOL_VERSION h.deviceName [] [] [] false] ∧
      (h.handleAsResponder ourPriority sshUser store peerAddr peerPort
          (.SyncHello PROTOCOL_VERSION h.deviceName ourPriority peer_key
            peer_comment peer_user :: rest)).store = store) ∧
    (∀ (peer_name : List Char) (peer_priority : U64)
        (peer_key peer_comment peer_user : List Char)
        (rest : List MessageFull),
      peer_name ≠ h.deviceName ∨ peer_priority ≠ ourPriority →
      (h.handleAsResponder ourPriority sshUser store peerAddr peerPort
          (.SyncHello PROTOCOL_VERSION peer_name peer_priority peer_key
            peer_comment peer_user :: rest)).store =
        addAuthorizedKey store peer_key ∧
      (h.handleAsResponder ourPriority sshUser store peerAddr peerPort
          (.SyncHello PROTOCOL_VERSION peer_name peer_priority peer_key
            peer_comment peer_user :: rest)).sent.head? =
        some (.SyncHelloAck PROTOCOL_VERSION h.deviceName
          h.keyPair.public_key h.keyPair.comment sshUser true)) := by
  constructor
  · intro peer_key peer_comment peer_user rest
    refine ⟨?_, ?_, ?_⟩ <;>
      simp [SyncHandler.handleAsResponder]
  · intro peer_name peer_priority peer_key peer_comment peer_user rest hne
    have hcond : ¬(peer_name = h.deviceName ∧ peer_priority = ourPriority) := by
      rcases hne with hne | hne <;> exact fun hc => hne (by simp [hc.1, hc.2])
    cases rest with
    | nil =>
      refine ⟨?_, ?_⟩ <;> simp [SyncHandler.handleAsResponder, hcond]
    | cons r2 rest2 =>
      refine ⟨?_, ?_⟩ <;>
        cases r2 <;>
          simp [SyncHandler.handleAsResponder, hcond] <;>
          (try split) <;> simp

theorem C6_witness :
    ((SyncHandler.mk "Dev".data ⟨"priv".data, "ssh-ed25519 AAAA a@x".data,
        "a@x".data⟩).handleAsResponder 7 "u".data none "10.0.0.2".data 8099
      [.SyncHello PROTOCOL_VERSION "Dev".data 7 "k B c".data "c".data
        "v".data]).result = .error .SyncWithSelf ∧
    ((SyncHandler.mk "Dev".data ⟨"priv".data, "ssh-ed25519 AAAA a@x".data,
        "a@x".data⟩).handleAsResponder 7 "u".data none "10.0.0.2".data 8099
      [.SyncHello PROTOCOL_VERSION "Other".data 7 "k B c".data "c".data
        "v".data]).store = addAuthorizedKey none "k B c".data :=
  ⟨((C6_responder_self_sync_detection _ 7 "u".data none "10.0.0.2".data
      8099).1 "k B c".data "c".data "v".data []).1,
   ((C6_responder_self_sync_detection _ 7 "u".data none "10.0.0.2".data
      8099).2 "Other".data 7 "k B c".data "c".data "v".data []
      (Or.inl (by decide))).1⟩

/-- **C2**: a full bidirectional sync of two handlers with distinct device
names and fresh authorized-keys stores, A driving `handle_as_initiator`
against B's `handle_as_responder`.  The message list B consumes is exactly
what A sends (trace consistency is the first conjunct), both results
report the opposite peer's device name and OS user, and each side's
authorized-keys holds exactly the other side's public key. -/
theorem C2_bidirectional_sync_exchanges_keys (hA hB : SyncHandler)
    (pA pB : U64) (uA uB addrA addrB : List Char) (portA portB : Nat)
    (hne : hA.deviceName ≠ hB.deviceName)
    (hA1 : '\n' ∉ hA.keyPair.public_key)
    (hA2 : hA.keyPair.public_key.getLast? ≠ some '\r')
    (hA3 : rustTrim hA.keyPair.public_key ≠ [])
    (hA4 : hA.keyPair.public_key.head? ≠ some '#')
    (hB1 : '\n' ∉ hB.keyPair.public_key)
    (hB2 : hB.keyPair.public_key.getLast? ≠ some '\r')
    (hB3 : rustTrim hB.keyPair.public_key ≠ [])
    (hB4 : hB.keyPair.public_key.head? ≠ some '#') :
    (hA.handleAsInitiator pA uA none addrB portB
        (hB.handleAsResponder pB uB none addrA portA
          [.SyncHello PROTOCOL_VERSION hA.deviceName pA
             hA.keyPair.public_key hA.keyPair.comment uA,
           .SyncComplete true "Key exchange successful".data]).sent).sent =
      [.SyncHello PROTOCOL_VERSION hA.deviceName pA
         hA.keyPair.public_key hA.keyPair.comment uA,
       .SyncComplete true "Key exchange successful".data] ∧
    (hA.handleAsInitiator pA uA none addrB portB
        (hB.handleAsResponder pB uB none addrA portA
          [.SyncHello PROTOCOL_VERSION hA.deviceName pA
             hA.keyPair.public_key hA.keyPair.comment uA,
           .SyncComplete true "Key exchange successful".data]).sent).result =
      .ok ⟨hB.deviceName, uB, addrB, portB⟩ ∧
    (hB.handleAsResponder pB uB none addrA portA
        [.SyncHello PROTOCOL_VERSION hA.deviceName pA
           hA.keyPair.public_key hA.keyPair.comment uA,
         .SyncComplete true "Key exchange successful".data]).result =
      .ok ⟨hA.deviceName, uA, addrA, portA⟩ ∧
    listAuthorizedKeys
      (hA.handleAsInitiator pA uA none addrB portB
        (hB.handleAsResponder pB uB none addrA portA
          [.SyncHello PROTOCOL_VERSION hA.deviceName pA
             hA.keyPair.public_key hA.keyPair.comment uA,
           .SyncComplete true "Key exchange successful".data]).sent).store =
      [hB.keyPair.public_key] ∧
    listAuthorizedKeys
      (hB.handleAsResponder pB uB none addrA portA
        [.SyncHello PROTOCOL_VERSION hA.deviceName pA
           hA.keyPair.public_key hA.keyPair.comment uA,
         .SyncComplete true "Key exchange successful".data]).store =
      [hA.keyPair.public_key] := by
  have hcond : ¬(hA.deviceName = hB.deviceName ∧ pA = pB) :=
    fun hc => hne hc.1
  have houtB : hB.handleAsResponder pB uB none addrA portA
      [.SyncHello PROTOCOL_VERSION hA.deviceName pA
         hA.keyPair.public_key hA.keyPair.comment uA,
       .SyncComplete true "Key exchange successful".data] =
      ⟨.ok ⟨hA.deviceName, uA, addrA, portA⟩,
       [.SyncHelloAck PROTOCOL_VERSION hB.deviceName hB.keyPair.public_key
          hB.keyPair.comment uB true,
        .SyncComplete true "Key exchange successful".data],
       some (hA.keyPair.public_key ++ ['\n'])⟩ := by
    simp [SyncHandler.handleAsResponder, hcond, addAuthorizedKey]
  have houtA : hA.handleAsInitiator pA uA none addrB portB
      [.SyncHelloAck PROTOCOL_VERSION hB.deviceName hB.keyPair.public_key
         hB.keyPair.comment uB true,
       .SyncComplete true "Key exchange successful".data] =
      ⟨.ok ⟨hB.deviceName, uB, addrB, portB⟩,
       [.SyncHello PROTOCOL_VERSION hA.deviceName pA
          hA.keyPair.public_key hA.keyPair.comment uA,
        .SyncComplete true "Key exchange successful".data],
       some (hB.keyPair.public_key ++ ['\n'])⟩ := by
    simp [SyncHandler.handleAsInitiator, addAuthorizedKey]
  rw [houtB]
  rw [show (⟨.ok ⟨hA.deviceName, uA, addrA, portA⟩,
       [.SyncHelloAck PROTOCOL_VERSION hB.deviceName hB.keyPair.public_key
          hB.keyPair.comment uB true,
        .SyncComplete true "Key exchange successful".data],
       some (hA.keyPair.public_key ++ ['\n'])⟩ : SyncOutcome).sent =
      [.SyncHelloAck PROTOCOL_VERSION hB.deviceName hB.keyPair.public_key
         hB.keyPair.comment uB true,
       .SyncComplete true "Key exchange successful".data] from rfl]
  rw [houtA]
  exact ⟨rfl, rfl, rfl,
    listAuthorizedKeys_single _ hB1 hB2 hB3 hB4,
    listAuthorizedKeys_single _ hA1 hA2 hA3 hA4⟩

theorem C2_witness :
    ((SyncHandler.mk "B".data
        ⟨"q".data, "ssh-ed25519 BBBB b@B".data, "b@B".data⟩).handleAsResponder
        2 "bob".data none "10.0.0.1".data 40000
        [.SyncHello PROTOCOL_VERSION "A".data 1 "ssh-ed25519 AAAA a@A".data
           "a@A".data "alice".data,
         .SyncComplete true "Key exchange successful".data]).result =
      .ok ⟨"A".data, "alice".data, "10.0.0.1".data, 40000⟩ ∧
    listAuthorizedKeys
      ((SyncHandler.mk "B".data
          ⟨"q".data, "ssh-ed25519 BBBB b@B".data, "b@B".data⟩).handleAsResponder
          2 "bob".data none "10.0.0.1".data 40000
          [.SyncHello PROTOCOL_VERSION "A".data 1 "ssh-ed25519 AAAA a@A".data
             "a@A".data "alice".data,
           .SyncComplete true "Key exchange successful".data]).store =
      ["ssh-ed25519 AAAA a@A".data] :=
  ⟨(C2_bidirectional_sync_exchanges_keys
      (SyncHandler.mk "A".data
        ⟨"p".data, "ssh-ed25519 AAAA a@A".data, "a@A".data⟩)
      (SyncHandler.mk "B".data
        ⟨"q".data, "ssh-ed25519 BBBB b@B".data, "b@B".data⟩)
      1 2 "alice".data "bob".data "10.0.0.1".data "10.0.0.2".data 40000 8099
      (by decide) (by decide) (by decide) (by decide) (by decide)
      (by decide) (by decide) (by decide) (by decide)).2.2.1,
   (C2_bidirectional_sync_exchanges_keys
      (SyncHandler.mk "A".data
        ⟨"p".data, "ssh-ed25519 AAAA a@A".data, "a@A".data⟩)
      (SyncHandler.mk "B".data
        ⟨"q".data, "ssh-ed25519 BBBB b@B".data, "b@B".data⟩)
      1 2 "alice".data "bob".data "10.0.0.1".data "10.0.0.2".data 40000 8099
      (by decide) (by decide) (by decide) (by decide) (by decide)
      (by decide) (by decide) (by decide) (by decide)).2.2.2.2⟩

/-! ## Claim about the one-way pairing handshake (C1) -/

/-- **C1**: a client `pair` run against `handle_one` of a listening server
with a fresh authorized-keys store: the messages the client sends are
exactly those the server consumed (trace consistency), the server accepts
and completes, the client's `PairingResult` carries the server's
configured device name, and the store afterwards holds exactly one entry —
the client's public-key line, which contains the client's key comment.
The final clause is the atomicity of `pair`: it returns `Ok` only when
the three responses are precisely a version-1 `HelloAck`, a `KeyAccepted`
and a `PairingComplete`, with the result built from them (any other
stream yields a typed error, by `pair`'s `Except` type). -/
theorem C1_pair_against_handle_one (s : HandshakeServer) (l : Nat)
    (clientName vcode sshUser : List Char) (kp : SshKeyPair)
    (hl : s.listener = some l)
    (hpk1 : '\n' ∉ kp.public_key)
    (hpk2 : kp.public_key.getLast? ≠ some '\r')
    (hpk3 : rustTrim kp.public_key ≠ [])
    (hpk4 : kp.public_key.head? ≠ some '#')
    (hcm : kp.comment <:+: kp.public_key) :
    (pair clientName kp
        (s.handleOne vcode sshUser none
          [.Hello PROTOCOL_VERSION clientName,
           .KeyExchange kp.public_key kp.comment]).sent).sent =
      [.Hello PROTOCOL_VERSION clientName,
       .KeyExchange kp.public_key kp.comment] ∧
    (s.handleOne vcode sshUser none
        [.Hello PROTOCOL_VERSION clientName,
         .KeyExchange kp.public_key kp.comment]).accepted = true ∧
    (s.handleOne vcode sshUser none
        [.Hello PROTOCOL_VERSION clientName,
         .KeyExchange kp.public_key kp.comment]).result = .ok () ∧
    (pair clientName kp
        (s.handleOne vcode sshUser none
          [.Hello PROTOCOL_VERSION clientName,
           .KeyExchange kp.public_key kp.comment]).sent).result =
      .ok ⟨s.deviceName, sshUser,
        if s.requireVerification then some vcode else none⟩ ∧
    listAuthorizedKeys
      (s.handleOne vcode sshUser none
        [.Hello PROTOCOL_VERSION clientName,
         .KeyExchange kp.public_key kp.comment]).store = [kp.public_key] ∧
    (∀ e ∈ listAuthorizedKeys
        (s.handleOne vcode sshUser none
          [.Hello PROTOCOL_VERSION clientName,
           .KeyExchange kp.public_key kp.comment]).store,
      rustContains e kp.comment = true) ∧
    (∀ (responses : List Message) (r : PairingResult),
      (pair clientName kp responses).result = .ok r →
      ∃ name vc m user, responses.take 3 =
        [.HelloAck PROTOCOL_VERSION name vc, .KeyAccepted m,
         .PairingComplete user] ∧ r = ⟨name, user, vc⟩) := by
  have hout : s.handleOne vcode sshUser none
      [.Hello PROTOCOL_VERSION clientName,
       .KeyExchange kp.public_key kp.comment] =
      ⟨{ s with listener := none }, true, .ok (),
       [.HelloAck PROTOCOL_VERSION s.deviceName
          (if s.requireVerification then some vcode else none),
        .KeyAccepted "Key added to authorized_keys".data,
        .PairingComplete sshUser],
       some (kp.public_key ++ ['\n'])⟩ := by
    simp [HandshakeServer.handleOne, HandshakeServer.takeListener, hl,
      handleClient, addAuthorizedKey]
  rw [hout]
  have hstore : listAuthorizedKeys (some (kp.public_key ++ ['\n'])) =
      [kp.public_key] :=
    listAuthorizedKeys_single _ hpk1 hpk2 hpk3 hpk4
  refine ⟨by simp [pair], rfl, rfl, by simp [pair], hstore, ?_, ?_⟩
  · intro e he
    rw [hstore] at he
    simp only [List.mem_singleton] at he
    subst he
    exact rustContains_of_inf hcm
  · intro responses r hr
    cases responses with
    | nil => simp [pair] at hr
    | cons r1 rest1 =>
      cases r1 with
      | HelloAck v name vc =>
        simp only [pair] at hr
        split at hr
        · simp at hr
        · next hv =>
          have hv' : v = PROTOCOL_VERSION := by
            by_contra hne
            exact hv hne
          subst hv'
          cases rest1 with
          | nil => simp at hr
          | cons r2 rest2 =>
            cases r2 with
            | KeyAccepted m =>
              cases rest2 with
              | nil => simp at hr
              | cons r3 rest3 =>
                cases r3 with
                | PairingComplete user =>
                  simp only [Except.ok.injEq] at hr
                  exact ⟨name, vc, m, user, rfl, hr.symm⟩
                | Hello _ _ => simp at hr
                | HelloAck _ _ _ => simp at hr
                | KeyExchange _ _ => simp at hr
                | KeyAccepted _ => simp at hr
                | Error _ _ => simp at hr
            | Error _ _ => simp at hr
            | Hello _ _ => simp at hr
            | HelloAck _ _ _ => simp at hr
            | KeyExchange _ _ => simp at hr
            | PairingComplete _ => simp at hr
      | Hello _ _ => simp [pair] at hr
      | KeyExchange _ _ => simp [pair] at hr
      | KeyAccepted _ => simp [pair] at hr
      | Error _ _ => simp [pair] at hr
      | PairingComplete _ => simp [pair] at hr

theorem C1_witness :
    (pair "Test Client".data
        ⟨"p".data, "ssh-ed25519 AAAA test@connecto".data,
         "test@connecto".data⟩
        ((HandshakeServer.mk (some 1) "Test Server".data false).handleOne
          "1234".data "user".data none
          [.Hello PROTOCOL_VERSION "Test Client".data,
           .KeyExchange "ssh-ed25519 AAAA test@connecto".data
             "test@connecto".data]).sent).result =
      .ok ⟨"Test Server".data, "user".data, none⟩ ∧
    listAuthorizedKeys
      ((HandshakeServer.mk (some 1) "Test Server".data false).handleOne
        "1234".data "user".data none
        [.Hello PROTOCOL_VERSION "Test Client".data,
         .KeyExchange "ssh-ed25519 AAAA test@connecto".data
           "test@connecto".data]).store =
      ["ssh-ed25519 AAAA test@connecto".data] :=
  ⟨(C1_pair_against_handle_one (HandshakeServer.mk (some 1)
      "Test Server".data false) 1 "Test Client".data "1234".data
      "user".data
      ⟨"p".data, "ssh-ed25519 AAAA test@connecto".data, "test@connecto".data⟩
      rfl (by decide) (by decide) (by decide) (by decide)
      (by decide)).2.2.2.1,
   (C1_pair_against_handle_one (HandshakeServer.mk (some 1)
      "Test Server".data false) 1 "Test Client".data "1234".data
      "user".data
      ⟨"p".data, "ssh-ed25519 AAAA test@connecto".data, "test@connecto".data⟩
      rfl (by decide) (by decide) (by decide) (by decide)
      (by decide)).2.2.2.2.1⟩

/-! ## Claim about CIDR parsing (C7) -/

theorem nat_le_or_right (x y : Nat) : y ≤ x ||| y := by
  have h : y &&& (x ||| y) = y := by
    apply Nat.eq_of_testBit_eq
    intro i
    rw [Nat.testBit_and, Nat.testBit_or]
    cases hy : y.testBit i <;> simp [hy]
  calc y = y &&& (x ||| y) := h.symm
    _ ≤ x ||| y := Nat.and_le_right

theorem land_highmask (x k : Nat) (hk : k ≤ 32) (hx : x < 4294967296) :
    x &&& ((2 ^ (32 - k) - 1) <<< k) = 2 ^ k * (x / 2 ^ k) := by
  apply Nat.eq_of_testBit_eq
  intro i
  rw [Nat.testBit_and, Nat.testBit_shiftLeft, Nat.testBit_two_pow_sub_one]
  rw [show 2 ^ k * (x / 2 ^ k) = (x >>> k) <<< k by
    rw [Nat.shiftLeft_eq, Nat.shiftRight_eq_div_pow]; ring]
  rw [Nat.testBit_shiftLeft, Nat.testBit_shiftRight]
  by_cases hik : k ≤ i
  · have h1 : k + (i - k) = i := by omega
    rw [h1]
    by_cases hi32 : i < 32
    · have h2 : i - k < 32 - k := by omega
      simp [hik, h2, Bool.and_comm]
    · have hxb : x.testBit i = false := Nat.testBit_lt_two_pow (by
        calc x < 4294967296 := hx
          _ = 2 ^ 32 := by norm_num
          _ ≤ 2 ^ i := Nat.pow_le_pow_right (by norm_num) (by omega))
      have h2 : ¬(i - k < 32 - k) := by omega
      simp [hxb, h2]
  · have : ¬(i ≥ k) := hik
    simp [this]

theorem cidrHosts_exclusion_aux (base p k : Nat)
    (hbase : base < 4294967296) (hp24 : 24 ≤ p)
    (hk1 : 1 ≤ k) (hk32 : k ≤ 32)
    (hmask : cidrMask p = (2 ^ (32 - k) - 1) <<< k)
    (hxor : 4294967295 ^^^ cidrMask p = 2 ^ k - 1) :
    cidrNetwork base p ∉ cidrHosts base p ∧
    cidrBroadcast base p ∉ cidrHosts base p := by
  have hnet : cidrNetwork base p = 2 ^ k * (base / 2 ^ k) := by
    rw [cidrNetwork, hmask]
    exact land_highmask base k hk32 hbase
  have hNle : cidrNetwork base p ≤ base := by
    rw [hnet]
    calc 2 ^ k * (base / 2 ^ k) = base / 2 ^ k * 2 ^ k := by ring
      _ ≤ base := Nat.div_mul_le_self base (2 ^ k)
  have hNlt : cidrNetwork base p < 4294967296 := lt_of_le_of_lt hNle hbase
  have hdvd32 : 2 ^ k ∣ 4294967296 := by
    rw [show (4294967296 : Nat) = 2 ^ 32 by norm_num]
    exact pow_dvd_pow 2 hk32
  have hdvdN : 2 ^ k ∣ cidrNetwork base p := ⟨base / 2 ^ k, hnet⟩
  have hgap : cidrNetwork base p + 2 ^ k ≤ 4294967296 := by
    have hpos : 0 < 4294967296 - cidrNetwork base p := by omega
    have hsub := Nat.le_of_dvd hpos (Nat.dvd_sub' hdvd32 hdvdN)
    omega
  have hK2 : 2 ≤ 2 ^ k :=
    calc 2 = 2 ^ 1 := by norm_num
      _ ≤ 2 ^ k := Nat.pow_le_pow_right (by norm_num) hk1
  have hbro : cidrBroadcast base p = cidrNetwork base p ||| (2 ^ k - 1) := by
    rw [cidrBroadcast, hxor]
  have hBlo : 2 ^ k - 1 ≤ cidrBroadcast base p := by
    rw [hbro]
    exact nat_le_or_right _ _
  have hBhi : cidrBroadcast base p < 4294967296 := by
    rw [hbro, show (4294967296 : Nat) = 2 ^ 32 by norm_num]
    exact Nat.or_lt_two_pow
      (by rw [show (2 : Nat) ^ 32 = 4294967296 by norm_num]; exact hNlt)
      (by have : 2 ^ k ≤ 2 ^ 32 := Nat.pow_le_pow_right (by norm_num) hk32
          omega)
  simp only [cidrHosts, if_pos hp24]
  generalize hN : cidrNetwork base p = N at *
  generalize hB : cidrBroadcast base p = B at *
  generalize hq : base / 2 ^ k = q at *
  generalize hKK : 2 ^ k = K at *
  constructor <;> intro hmem <;> rw [List.mem_range'_1] at hmem <;> omega

set_option maxRecDepth 8192

/-- **C7**: `parse_cidr("192.168.1.0/24")` yields exactly the 254
consecutive host addresses 192.168.1.1 .. 192.168.1.254; for every valid
input with prefix ≥ 24 the network and broadcast addresses are excluded
from the result; and a successful parse requires exactly one `/`, a
well-formed IP, a well-formed prefix number, and `16 ≤ prefix ≤ 32`, so
any input with prefix < 16, malformed IP, malformed prefix or missing
`/` fails with an error. -/
theorem C7_parse_cidr_spec :
    parseCidr "192.168.1.0/24".data = .ok (List.range' 3232235777 254) ∧
    parseIpv4 "192.168.1.1".data = some 3232235777 ∧
    parseIpv4 "192.168.1.254".data = some 3232236030 ∧
    (List.range' 3232235777 254).length = 254 ∧
    (∀ base p, base < 4294967296 → 24 ≤ p → p ≤ 32 →
      cidrNetwork base p ∉ cidrHosts base p ∧
      cidrBroadcast base p ∉ cidrHosts base p) ∧
    (∀ l ips, parseCidr l = .ok ips →
      ∃ ipStr prefixStr base p,
        l.splitOn '/' = [ipStr, prefixStr] ∧ parseIpv4 ipStr = some base ∧
        parseU8 prefixStr = some p ∧ 16 ≤ p ∧ p ≤ 32 ∧
        ips = cidrHosts base p) := by
  refine ⟨by rfl, by rfl, by rfl, by rfl, ?_, ?_⟩
  · intro base p hbase hp24 hp32
    by_cases hp : p = 32
    · subst hp
      have hnet : cidrNetwork base 32 = base := by
        rw [cidrNetwork, cidrMask]
        simp only [if_pos rfl]
        rw [show (4294967295 : Nat) = 2 ^ 32 - 1 by norm_num]
        exact Nat.and_pow_two_sub_one_of_lt_two_pow
          (by rw [show (2 : Nat) ^ 32 = 4294967296 by norm_num]; exact hbase)
      have hbro : cidrBroadcast base 32 = base := by
        rw [cidrBroadcast,
          show cidrMask 32 = 4294967295 from by rw [cidrMask]; simp,
          Nat.xor_self, Nat.or_zero, hnet]
      rw [hnet, hbro]
      simp only [cidrHosts, hnet, hbro, if_pos (by omega : 24 ≤ 32)]
      constructor <;> intro hmem <;> rw [List.mem_range'_1] at hmem <;>
        omega
    · interval_cases p
      · exact cidrHosts_exclusion_aux base 24 8 hbase (by omega) (by omega)
          (by omega) (by decide) (by decide)
      · exact cidrHosts_exclusion_aux base 25 7 hbase (by omega) (by omega)
          (by omega) (by decide) (by decide)
      · exact cidrHosts_exclusion_aux base 26 6 hbase (by omega) (by omega)
          (by omega) (by decide) (by decide)
      · exact cidrHosts_exclusion_aux base 27 5 hbase (by omega) (by omega)
          (by omega) (by decide) (by decide)
      · exact cidrHosts_exclusion_aux base 28 4 hbase (by omega) (by omega)
          (by omega) (by decide) (by decide)
      · exact cidrHosts_exclusion_aux base 29 3 hbase (by omega) (by omega)
          (by omega) (by decide) (by decide)
      · exact cidrHosts_exclusion_aux base 30 2 hbase (by omega) (by omega)
          (by omega) (by decide) (by decide)
      · exact cidrHosts_exclusion_aux base 31 1 hbase (by omega) (by omega)
          (by omega) (by decide) (by decide)
      · exact absurd rfl hp
  · intro l ips hok
    simp only [parseCidr] at hok
    cases hsp : l.splitOn '/' with
    | nil => simp only [hsp] at hok; exact Except.noConfusion hok
    | cons a as =>
      cases as with
      | nil => simp only [hsp] at hok; exact Except.noConfusion hok
      | cons b bs =>
        cases bs with
        | cons c cs => simp only [hsp] at hok; exact Except.noConfusion hok
        | nil =>
          simp only [hsp] at hok
          cases hip : parseIpv4 a with
          | none => simp only [hip] at hok; exact Except.noConfusion hok
          | some base =>
            simp only [hip] at hok
            cases hu8 : parseU8 b with
            | none => simp only [hu8] at hok; exact Except.noConfusion hok
            | some p =>
              simp only [hu8] at hok
              by_cases h32 : 32 < p
              · rw [if_pos h32] at hok; simp at hok
              · rw [if_neg h32] at hok
                by_cases h16 : p < 16
                · rw [if_pos h16] at hok; simp at hok
                · rw [if_neg h16] at hok
                  simp only [Except.ok.injEq] at hok
                  exact ⟨a, b, base, p, rfl, hip, hu8, by omega, by omega,
                    hok.symm⟩

theorem C7_witness :
    (3232235776 ∉ cidrHosts 3232235776 24 ∧
     3232236031 ∉ cidrHosts 3232235776 24) ∧
    (∃ ipStr prefixStr base p,
      "10.0.0.0/30".data.splitOn '/' = [ipStr, prefixStr] ∧
      parseIpv4 ipStr = some base ∧ parseU8 prefixStr = some p ∧
      16 ≤ p ∧ p ≤ 32 ∧ [167772161, 167772162] = cidrHosts base p) :=
  ⟨C7_parse_cidr_spec.2.2.2.2.1 3232235776 24 (by decide) (by decide)
     (by decide),
   C7_parse_cidr_spec.2.2.2.2.2 "10.0.0.0/30".data [167772161, 167772162]
     rfl⟩

/-! ## Claim about the wire format (C3): string escaping -/

theorem parseHexDigitChar_hexDigitChar :
    ∀ n, n < 16 → parseHexDigitChar (hexDigitChar n) = some n := by
  decide

theorem parseStringBody_escapeChar (c : Char) (rest : List Char) :
    parseStringBody (escapeChar c ++ rest) =
      (parseStringBody rest).map (fun p => (c :: p.1, p.2)) := by
  by_cases h1 : c = '"'
  · subst h1
    show parseStringBody ('\\' :: '"' :: rest) = _
    rw [parseStringBody.eq_def]
    rfl
  · by_cases h2 : c = '\\'
    · subst h2
      show parseStringBody ('\\' :: '\\' :: rest) = _
      rw [parseStringBody.eq_def]
      rfl
    · by_cases h3 : c = '\x08'
      · subst h3
        show parseStringBody ('\\' :: 'b' :: rest) = _
        rw [parseStringBody.eq_def]
        rfl
      · by_cases h4 : c = '\t'
        · subst h4
          show parseStringBody ('\\' :: 't' :: rest) = _
          rw [parseStringBody.eq_def]
          rfl
        · by_cases h5 : c = '\n'
          · subst h5
            show parseStringBody ('\\' :: 'n' :: rest) = _
            rw [parseStringBody.eq_def]
            rfl
          · by_cases h6 : c = '\x0c'
            · subst h6
              show parseStringBody ('\\' :: 'f' :: rest) = _
              rw [parseStringBody.eq_def]
              rfl
            · by_cases h7 : c = '\r'
              · subst h7
                show parseStringBody ('\\' :: 'r' :: rest) = _
                rw [parseStringBody.eq_def]
                rfl
              · by_cases h8 : c.toNat < 32
                · have hesc : escapeChar c =
                      ['\\', 'u', '0', '0', hexDigitChar (c.toNat / 16),
                       hexDigitChar (c.toNat % 16)] := by
                    simp [escapeChar, h1, h2, h3, h4, h5, h6, h7, h8]
                  rw [hesc]
                  have hh : parseHexDigitChar (hexDigitChar (c.toNat / 16)) =
                      some (c.toNat / 16) :=
                    parseHexDigitChar_hexDigitChar _ (by omega)
                  have hl : parseHexDigitChar (hexDigitChar (c.toNat % 16)) =
                      some (c.toNat % 16) :=
                    parseHexDigitChar_hexDigitChar _ (by omega)
                  show parseStringBody ('\\' :: 'u' :: '0' :: '0' ::
                    hexDigitChar (c.toNat / 16) ::
                    hexDigitChar (c.toNat % 16) :: rest) = _
                  rw [parseStringBody.eq_def]
                  simp only [reduceIte, show parseHexDigitChar '0' = some 0 from rfl,
                    hh, hl]
                  rw [if_neg (by decide), if_neg (by decide), if_neg (by decide),
                    if_neg (by decide), if_neg (by decide), if_neg (by decide),
                    if_neg (by decide), if_pos (Or.inl (by omega))]
                  have hval : ((0 * 16 + 0) * 16 + c.toNat / 16) * 16 +
                      c.toNat % 16 = c.toNat := by omega
                  rw [hval, Char.ofNat_toNat]
                · have hesc : escapeChar c = [c] := by
                    simp [escapeChar, h1, h2, h3, h4, h5, h6, h7, h8]
                  rw [hesc]
                  show parseStringBody (c :: rest) = _
                  rw [parseStringBody.eq_def]
                  simp only []
                  rw [if_neg h1, if_neg h2, if_neg (by omega)]

theorem parseStringBody_printString_body :
    ∀ (s rest : List Char),
      parseStringBody ((s.map escapeChar).flatten ++ ('"' :: rest)) =
        some (s, rest) := by
  intro s
  induction s with
  | nil =>
    intro rest
    show parseStringBody ('"' :: rest) = some ([], rest)
    rw [parseStringBody.eq_def]
    rfl
  | cons c s ih =>
    intro rest
    rw [List.map_cons, List.flatten_cons, List.append_assoc,
      parseStringBody_escapeChar, ih]
    rfl

theorem digitChar_isDigit (d : Nat) (h : d < 10) :
    (Char.ofNat (48 + d)).isDigit = true := by
  interval_cases d <;> decide

theorem digitChar_toNat (d : Nat) (h : d < 10) :
    (Char.ofNat (48 + d)).toNat = 48 + d := by
  interval_cases d <;> decide

theorem digitChar_ne_zero (d : Nat) (h : d < 10) (h1 : 1 ≤ d) :
    Char.ofNat (48 + d) ≠ '0' := by
  interval_cases d <;> decide

theorem parseNatAux_stop (l : List Char) (acc : Nat)
    (h : ∀ c, l.head? = some c → c.isDigit = false) :
    parseNatAux l acc = (acc, l) := by
  cases l with
  | nil => rfl
  | cons c t =>
    have hc := h c rfl
    simp [parseNatAux, hc]

theorem parseNatAux_digits :
    ∀ fuel n acc rest, n < 10 ^ (fuel + 1) →
      parseNatAux ((natDigitsRevFuel (fuel + 1) n).reverse ++ rest) acc =
        parseNatAux rest
          (acc * 10 ^ (natDigitsRevFuel (fuel + 1) n).length + n) := by
  intro fuel
  induction fuel with
  | zero =>
    intro n acc rest h
    have hn : n < 10 := by simpa using h
    rw [natDigitsRevFuel, if_pos hn]
    simp [parseNatAux, digitChar_isDigit n hn, digitChar_toNat n hn]
  | succ fuel ih =>
    intro n acc rest h
    by_cases hn : n < 10
    · rw [natDigitsRevFuel, if_pos hn]
      simp [parseNatAux, digitChar_isDigit n hn, digitChar_toNat n hn]
    · have hd : n % 10 < 10 := Nat.mod_lt _ (by omega)
      have hdiv : n / 10 < 10 ^ (fuel + 1) := by
        have h10 : (10:Nat) ^ (fuel + 1 + 1) = 10 ^ (fuel + 1) * 10 := by
          rw [pow_succ]
        omega
      rw [natDigitsRevFuel, if_neg hn]
      rw [List.reverse_cons, List.append_assoc, List.singleton_append]
      rw [ih (n / 10) acc (Char.ofNat (48 + n % 10) :: rest) hdiv]
      rw [parseNatAux, if_pos (digitChar_isDigit _ hd), digitChar_toNat _ hd]
      congr 1
      simp only [List.length_reverse, List.length_cons, List.length_append,
        List.length_reverse]
      rw [pow_succ, ← Nat.mul_assoc]
      have hdm := Nat.div_add_mod n 10
      generalize (10:Nat) ^ (natDigitsRevFuel (fuel + 1) (n / 10)).length = g
      generalize acc * g = A
      omega

theorem natDigitsRevFuel_head (fuel n : Nat) :
    ∃ d t, d < 10 ∧ natDigitsRevFuel (fuel + 1) n = Char.ofNat (48 + d) :: t := by
  rw [natDigitsRevFuel]
  by_cases hn : n < 10
  · exact ⟨n, [], hn, by rw [if_pos hn]⟩
  · exact ⟨n % 10, _, Nat.mod_lt _ (by omega), by rw [if_neg hn]⟩

theorem natDigitsRev_msd :
    ∀ fuel n, n < 10 ^ (fuel + 1) →
      ∃ d t, d < 10 ∧ (1 ≤ n → 1 ≤ d) ∧
        (natDigitsRevFuel (fuel + 1) n).reverse = Char.ofNat (48 + d) :: t := by
  intro fuel
  induction fuel with
  | zero =>
    intro n h
    have hn : n < 10 := by simpa using h
    rw [natDigitsRevFuel, if_pos hn]
    exact ⟨n, [], hn, fun h1 => h1, rfl⟩
  | succ fuel ih =>
    intro n h
    by_cases hn : n < 10
    · rw [natDigitsRevFuel, if_pos hn]
      exact ⟨n, [], hn, fun h1 => h1, rfl⟩
    · have hdiv : n / 10 < 10 ^ (fuel + 1) := by
        have h10 : (10:Nat) ^ (fuel + 1 + 1) = 10 ^ (fuel + 1) * 10 := by
          rw [pow_succ]
        omega
      obtain ⟨d, t, hd, hd1, hrev⟩ := ih (n / 10) hdiv
      rw [natDigitsRevFuel, if_neg hn, List.reverse_cons, hrev]
      exact ⟨d, t ++ [Char.ofNat (48 + n % 10)], hd,
        fun _ => hd1 (by omega), rfl⟩

theorem parseNumber_printNat (n : Nat) (rest : List Char)
    (h : ∀ c, rest.head? = some c → c.isDigit = false) :
    parseNumber (printNat n ++ rest) = some (n, rest) := by
  by_cases hn : n = 0
  · subst hn
    show parseNumber ('0' :: rest) = _
    cases rest with
    | nil => rfl
    | cons c t =>
      have hc := h c rfl
      simp [parseNumber, hc]
  · have hlt : n < 10 ^ (n + 1) :=
      lt_of_lt_of_le (Nat.lt_two_pow n)
        (Nat.pow_le_pow_left (by omega) _) |>.trans_le
        (Nat.pow_le_pow_right (by omega) (by omega))
    obtain ⟨d, t, hd, hd1, hrev⟩ := natDigitsRev_msd n n hlt
    have hd1' : 1 ≤ d := hd1 (by omega)
    have hA := parseNatAux_digits n n 0 rest hlt
    rw [hrev] at hA
    rw [List.cons_append, parseNatAux, if_pos (digitChar_isDigit d hd),
      digitChar_toNat d hd, parseNatAux_stop rest _ h] at hA
    have hz : 0 * 10 + (48 + d - 48) = d := by omega
    have hz2 : 0 * 10 ^ (natDigitsRevFuel (n + 1) n).length + n = n := by simp
    rw [hz, hz2] at hA
    rw [printNat, hrev, List.cons_append, parseNumber.eq_def]
    simp only []
    rw [if_neg (digitChar_ne_zero d hd hd1'), if_pos (digitChar_isDigit d hd),
      digitChar_toNat d hd]
    have hn48 : 48 + d - 48 = d := by omega
    rw [hn48, hA]

theorem not_ws_of_isDigit (c : Char) (h : c.isDigit = true) :
    rustIsWhitespace c = false := by
  have hb : 48 ≤ c.toNat ∧ c.toNat ≤ 57 := by
    simp [Char.isDigit, Char.le_def] at h
    exact h
  simp only [rustIsWhitespace, Bool.or_eq_false_iff, decide_eq_false_iff_not]
  refine ⟨⟨⟨⟨⟨⟨⟨?_, ?_⟩, ?_⟩, ?_⟩, ?_⟩, ?_⟩, ?_⟩, ?_⟩ <;>
    (rintro rfl; simp at hb) <;> omega

theorem natDigitsRevFuel_all_digits :
    ∀ fuel n c, c ∈ natDigitsRevFuel fuel n → c.isDigit = true := by
  intro fuel
  induction fuel with
  | zero => intro n c hc; simp [natDigitsRevFuel] at hc
  | succ fuel ih =>
    intro n c hc
    rw [natDigitsRevFuel] at hc
    by_cases hn : n < 10
    · rw [if_pos hn] at hc
      simp at hc
      subst hc
      exact digitChar_isDigit n hn
    · rw [if_neg hn] at hc
      rcases List.mem_cons.mp hc with hc | hc
      · subst hc
        exact digitChar_isDigit _ (Nat.mod_lt _ (by omega))
      · exact ih _ c hc

theorem hexDigitChar_ne_newline (k : Nat) (h : k < 16) :
    hexDigitChar k ≠ '\n' := by
  interval_cases k <;> decide

theorem escapeChar_ne_newline (c x : Char) (hx : x ∈ escapeChar c) :
    x ≠ '\n' := by
  unfold escapeChar at hx
  split_ifs at hx with h1 h2 h3 h4 h5 h6 h7 h8
  · simp only [List.mem_cons, List.not_mem_nil, or_false] at hx
    rcases hx with rfl | rfl <;> decide
  · simp only [List.mem_cons, List.not_mem_nil, or_false] at hx
    rcases hx with rfl | rfl <;> decide
  · simp only [List.mem_cons, List.not_mem_nil, or_false] at hx
    rcases hx with rfl | rfl <;> decide
  · simp only [List.mem_cons, List.not_mem_nil, or_false] at hx
    rcases hx with rfl | rfl <;> decide
  · simp only [List.mem_cons, List.not_mem_nil, or_false] at hx
    rcases hx with rfl | rfl <;> decide
  · simp only [List.mem_cons, List.not_mem_nil, or_false] at hx
    rcases hx with rfl | rfl <;> decide
  · simp only [List.mem_cons, List.not_mem_nil, or_false] at hx
    rcases hx with rfl | rfl <;> decide
  · simp only [List.mem_cons, List.not_mem_nil, or_false] at hx
    rcases hx with rfl | rfl | rfl | rfl | rfl | rfl
    · decide
    · decide
    · decide
    · decide
    · exact hexDigitChar_ne_newline _ (by omega)
    · exact hexDigitChar_ne_newline _ (Nat.mod_lt _ (by omega))
  · simp at hx
    subst hx
    exact h5

theorem newline_notMem_printString (s : List Char) :
    '\n' ∉ printString s := by
  intro hmem
  rw [printString] at hmem
  rcases List.mem_cons.mp hmem with h | hmem
  · exact absurd h (by decide)
  rcases List.mem_append.mp hmem with hmem | h
  · rcases List.mem_flatten.mp hmem with ⟨l, hl, hx⟩
    rcases List.mem_map.mp hl with ⟨c, hc, rfl⟩
    exact escapeChar_ne_newline c '\n' hx rfl
  · exact absurd (List.mem_singleton.mp h) (by decide)

theorem newline_notMem_printNat (n : Nat) : '\n' ∉ printNat n := by
  intro hmem
  rw [printNat, List.mem_reverse] at hmem
  have := natDigitsRevFuel_all_digits (n + 1) n '\n' hmem
  exact absurd this (by decide)

theorem newline_notMem_printJson_aux :
    ∀ k : Nat,
      (∀ v : Json, sizeOf v ≤ k → '\n' ∉ printJson v) ∧
      (∀ fields : List (List Char × Json), sizeOf fields ≤ k →
        '\n' ∉ printJson.printFields fields) := by
  intro k
  induction k with
  | zero =>
    constructor
    · intro v h
      exfalso
      cases v <;> simp at h <;> omega
    · intro fields h
      exfalso
      cases fields <;> simp at h <;> omega
  | succ k ih =>
    constructor
    · intro v hv
      cases v with
      | str s => exact newline_notMem_printString s
      | num n => exact newline_notMem_printNat n
      | bool b => cases b <;> decide
      | null => decide
      | obj fields =>
        intro hmem
        rw [printJson] at hmem
        rcases List.mem_cons.mp hmem with h | hmem
        · exact absurd h (by decide)
        rcases List.mem_append.mp hmem with hmem | h
        · have hsz : sizeOf fields ≤ k := by simp at hv; omega
          exact ih.2 fields hsz hmem
        · exact absurd (List.mem_singleton.mp h) (by decide)
    · intro fields hsz
      cases fields with
      | nil =>
        intro hmem
        rw [printJson.printFields] at hmem
        simp at hmem
      | cons p rest =>
        obtain ⟨key, v⟩ := p
        cases rest with
        | nil =>
          intro hmem
          rw [printJson.printFields.eq_def] at hmem
          simp only [] at hmem
          rcases List.mem_append.mp hmem with h | hmem
          · exact newline_notMem_printString key h
          rcases List.mem_cons.mp hmem with h | hmem
          · exact absurd h (by decide)
          have hsv : sizeOf v ≤ k := by simp at hsz; omega
          exact ih.1 v hsv hmem
        | cons q rest2 =>
          intro hmem
          rw [printJson.printFields.eq_def] at hmem
          simp only [] at hmem
          rcases List.mem_append.mp hmem with hmem | hmem
          · rcases List.mem_append.mp hmem with h | hmem
            · exact newline_notMem_printString key h
            rcases List.mem_cons.mp hmem with h | hmem
            · exact absurd h (by decide)
            have hsv : sizeOf v ≤ k := by simp at hsz; omega
            exact ih.1 v hsv hmem
          · rcases List.mem_cons.mp hmem with h | hmem
            · exact absurd h (by decide)
            have hsr : sizeOf (q :: rest2) ≤ k := by simp at hsz ⊢; omega
            exact ih.2 (q :: rest2) hsr hmem

theorem newline_notMem_printJson (v : Json) : '\n' ∉ printJson v :=
  (newline_notMem_printJson_aux (sizeOf v)).1 v le_rfl

theorem need_le_printJson_aux :
    ∀ k : Nat,
      (∀ v : Json, sizeOf v ≤ k → Json.need v ≤ (printJson v).length) ∧
      (∀ fields : List (List Char × Json), sizeOf fields ≤ k →
        Json.need.needFields fields ≤
          (printJson.printFields fields).length + 1) := by
  intro k
  induction k with
  | zero =>
    constructor
    · intro v h
      exfalso
      cases v <;> simp at h <;> omega
    · intro fields h
      exfalso
      cases fields <;> simp at h <;> omega
  | succ k ih =>
    constructor
    · intro v hv
      cases v with
      | str s =>
        show 1 ≤ (printString s).length
        rw [printString]
        simp
      | num n =>
        obtain ⟨d, t, _, heq⟩ := natDigitsRevFuel_head n n
        show 1 ≤ (printNat n).length
        rw [printNat, heq]
        simp
      | bool b => cases b <;> decide
      | null => decide
      | obj fields =>
        have hsz : sizeOf fields ≤ k := by simp at hv; omega
        have h2 := ih.2 fields hsz
        show 1 + Json.need.needFields fields ≤ _
        rw [printJson]
        simp only [List.length_cons, List.length_append, List.length_singleton]
        omega
    · intro fields hsz
      cases fields with
      | nil =>
        rw [Json.need.needFields, printJson.printFields]
        simp
      | cons p rest =>
        obtain ⟨key, v⟩ := p
        have hsv : sizeOf v ≤ k := by simp at hsz; omega
        have h1 := ih.1 v hsv
        cases rest with
        | nil =>
          rw [Json.need.needFields, Json.need.needFields,
            printJson.printFields.eq_def]
          simp only [List.length_append, List.length_cons]
          omega
        | cons q rest2 =>
          have hsr : sizeOf (q :: rest2) ≤ k := by simp at hsz ⊢; omega
          have h2 := ih.2 (q :: rest2) hsr
          rw [Json.need.needFields, printJson.printFields.eq_def]
          simp only [List.length_append, List.length_cons]
          omega

theorem printJson_head_not_ws (v : Json) :
    ∃ c t, printJson v = c :: t ∧ rustIsWhitespace c = false := by
  cases v with
  | str s => exact ⟨'"', _, rfl, by decide⟩
  | num n =>
    have hlt : n < 10 ^ (n + 1) :=
      lt_of_lt_of_le (Nat.lt_two_pow n)
        (Nat.pow_le_pow_left (by omega) _) |>.trans_le
        (Nat.pow_le_pow_right (by omega) (by omega))
    obtain ⟨d, t, hd, _, hrev⟩ := natDigitsRev_msd n n hlt
    refine ⟨Char.ofNat (48 + d), t, ?_, ?_⟩
    · show printNat n = _
      rw [printNat, hrev]
    · exact not_ws_of_isDigit _ (digitChar_isDigit d hd)
  | bool b => cases b <;> exact ⟨_, _, rfl, by decide⟩
  | null => exact ⟨'n', _, rfl, by decide⟩
  | obj fields => exact ⟨'{', _, rfl, by decide⟩

theorem printJson_getLast_not_ws (v : Json) :
    ∃ c, (printJson v).getLast? = some c ∧ rustIsWhitespace c = false := by
  cases v with
  | str s =>
    refine ⟨'"', ?_, by decide⟩
    show (printString s).getLast? = _
    rw [printString, List.getLast?_concat]
  | num n =>
    obtain ⟨d, t, hd, heq⟩ := natDigitsRevFuel_head n n
    refine ⟨Char.ofNat (48 + d), ?_, not_ws_of_isDigit _ (digitChar_isDigit d hd)⟩
    show (printNat n).getLast? = _
    rw [printNat, List.getLast?_reverse, heq]
    rfl
  | bool b => cases b <;> exact ⟨'e', by decide, by decide⟩
  | null => exact ⟨'l', by decide, by decide⟩
  | obj fields =>
    refine ⟨'}', ?_, by decide⟩
    show (('{' :: printJson.printFields fields) ++ ['}']).getLast? = _
    rw [List.getLast?_concat]

theorem rustTrim_line (c : Char) (t : List Char)
    (hc : rustIsWhitespace c = false)
    (hlast : ∀ x, (c :: t).getLast? = some x → rustIsWhitespace x = false) :
    rustTrim ((c :: t) ++ ['\n']) = c :: t := by
  rw [rustTrim, List.cons_append, List.dropWhile_cons, if_neg (by simp [hc])]
  rw [← List.cons_append, List.reverse_append]
  show (('\n' :: (c :: t).reverse).dropWhile rustIsWhitespace).reverse = _
  rw [List.dropWhile_cons, if_pos (by decide)]
  cases hrev : (c :: t).reverse with
  | nil => exact absurd hrev (by simp)
  | cons y ys =>
    have hy : (c :: t).getLast? = some y := by
      rw [← List.head?_reverse, hrev]
      rfl
    rw [List.dropWhile_cons, if_neg (by simp [hlast y hy])]
    rw [← hrev, List.reverse_reverse]

theorem one_le_need (v : Json) : 1 ≤ Json.need v := by
  cases v with
  | str s => exact Nat.le_refl 1
  | num n => exact Nat.le_refl 1
  | bool b => exact Nat.le_refl 1
  | null => exact Nat.le_refl 1
  | obj fields => exact Nat.le_add_right 1 _

theorem one_le_needFields (p : List Char × Json)
    (rest : List (List Char × Json)) :
    1 ≤ Json.need.needFields (p :: rest) := by
  obtain ⟨k, v⟩ := p
  exact Nat.le_add_right 1 _

theorem parseJson_succ_cons (fuel : Nat) (c : Char) (rest : List Char) :
    parseJson (fuel + 1) (c :: rest) =
      (if c = '"' then (parseStringBody rest).map (fun p => (Json.str p.1, p.2))
      else if c = '\x7b' then
        match rest with
        | '\x7d' :: r => some (.obj [], r)
        | _ => (parseFields fuel rest).map (fun p => (Json.obj p.1, p.2))
      else if c = 't' then
        match rest with
        | 'r' :: 'u' :: 'e' :: r => some (.bool true, r)
        | _ => none
      else if c = 'f' then
        match rest with
        | 'a' :: 'l' :: 's' :: 'e' :: r => some (.bool false, r)
        | _ => none
      else if c = 'n' then
        match rest with
        | 'u' :: 'l' :: 'l' :: r => some (.null, r)
        | _ => none
      else (parseNumber (c :: rest)).map (fun p => (Json.num p.1, p.2))) := rfl

theorem parseFields_succ (fuel : Nat) (l : List Char) :
    parseFields (fuel + 1) l =
      (match l with
      | '"' :: rest =>
        match parseStringBody rest with
        | none => none
        | some (key, r1) =>
          match r1 with
          | ':' :: r2 =>
            match parseJson fuel r2 with
            | none => none
            | some (v, r3) =>
              match r3 with
              | ',' :: r4 =>
                (parseFields fuel r4).map (fun p => ((key, v) :: p.1, p.2))
              | '\x7d' :: r4 => some ([(key, v)], r4)
              | _ => none
          | _ => none
      | _ => none) := rfl

theorem parseJson_digit_head (fuel : Nat) (c : Char) (l : List Char)
    (hc : c.isDigit = true) :
    parseJson (fuel + 1) (c :: l) =
      (parseNumber (c :: l)).map (fun p => (Json.num p.1, p.2)) := by
  have hq : ¬c = '\x22' := by intro h; subst h; exact absurd hc (by decide)
  have hb : ¬c = '\x7b' := by intro h; subst h; exact absurd hc (by decide)
  have ht : ¬c = 't' := by intro h; subst h; exact absurd hc (by decide)
  have hf : ¬c = 'f' := by intro h; subst h; exact absurd hc (by decide)
  have hn : ¬c = 'n' := by intro h; subst h; exact absurd hc (by decide)
  rw [parseJson_succ_cons]
  rw [if_neg hq, if_neg hb, if_neg ht, if_neg hf, if_neg hn]

theorem printFields_cons_head (key : List Char) (v : Json)
    (fs : List (List Char × Json)) :
    ∃ y, printJson.printFields ((key, v) :: fs) = '"' :: y := by
  cases fs with
  | nil =>
    refine ⟨(key.map escapeChar).flatten ++
      ('"' :: (':' :: printJson v)), ?_⟩
    rw [printJson.printFields.eq_def]
    simp only [printString, List.append_assoc, List.cons_append,
      List.singleton_append, List.nil_append]
  | cons q qs =>
    refine ⟨(key.map escapeChar).flatten ++
      ('"' :: (':' :: (printJson v ++
        (',' :: printJson.printFields (q :: qs))))), ?_⟩
    rw [printJson.printFields.eq_def]
    simp only [printString, List.append_assoc, List.cons_append,
      List.singleton_append, List.nil_append]

theorem parseJson_printJson :
    ∀ fuel : Nat,
      (∀ (v : Json) (rest : List Char), Json.need v ≤ fuel →
        (∀ c, rest.head? = some c → c.isDigit = false) →
        parseJson fuel (printJson v ++ rest) = some (v, rest)) ∧
      (∀ (fields : List (List Char × Json)) (rest : List Char),
        Json.need.needFields fields ≤ fuel → fields ≠ [] →
        parseFields fuel (printJson.printFields fields ++ '}' :: rest) =
          some (fields, rest)) := by
  intro fuel
  induction fuel with
  | zero =>
    constructor
    · intro v rest hneed _
      exact absurd (le_trans (one_le_need v) hneed) (by decide)
    · intro fields rest hneed hne
      cases fields with
      | nil => exact absurd rfl hne
      | cons p r =>
        exact absurd (le_trans (one_le_needFields p r) hneed) (by decide)
  | succ fuel ih =>
    constructor
    · intro v rest hneed hrest
      cases v with
      | str s =>
        rw [show printJson (Json.str s) =
          ('"' :: (s.map escapeChar).flatten) ++ ['"'] from rfl]
        rw [List.append_assoc, List.singleton_append, List.cons_append]
        rw [parseJson_succ_cons, if_pos rfl]
        rw [parseStringBody_printString_body]
        rfl
      | num n =>
        have hlt : n < 10 ^ (n + 1) :=
          lt_of_lt_of_le (Nat.lt_two_pow n)
            (Nat.pow_le_pow_left (by omega) _) |>.trans_le
            (Nat.pow_le_pow_right (by omega) (by omega))
        obtain ⟨d, t, hd, _, hrev⟩ := natDigitsRev_msd n n hlt
        rw [show printJson (Json.num n) = printNat n from rfl]
        rw [printNat, hrev, List.cons_append]
        rw [parseJson_digit_head fuel _ _ (digitChar_isDigit d hd)]
        rw [← List.cons_append, ← hrev, ← printNat,
          parseNumber_printNat n rest hrest]
        rfl
      | bool b =>
        cases b
        · show parseJson (fuel + 1)
            ('f' :: 'a' :: 'l' :: 's' :: 'e' :: rest) = _
          rw [parseJson_succ_cons]
          rfl
        · show parseJson (fuel + 1)
            ('t' :: 'r' :: 'u' :: 'e' :: rest) = _
          rw [parseJson_succ_cons]
          rfl
      | null =>
        show parseJson (fuel + 1) ('n' :: 'u' :: 'l' :: 'l' :: rest) = _
        rw [parseJson_succ_cons]
        rfl
      | obj fields =>
        cases fields with
        | nil =>
          show parseJson (fuel + 1) ('{' :: '}' :: rest) = _
          rw [parseJson_succ_cons]
          rfl
        | cons p fs =>
          obtain ⟨key, v⟩ := p
          have hneed' : Json.need.needFields ((key, v) :: fs) ≤ fuel := by
            have h1 : Json.need (Json.obj ((key, v) :: fs)) =
                1 + Json.need.needFields ((key, v) :: fs) := rfl
            omega
          have h2 := ih.2 ((key, v) :: fs) rest hneed' (by simp)
          obtain ⟨y, hy⟩ := printFields_cons_head key v fs
          rw [show printJson (Json.obj ((key, v) :: fs)) =
            ('{' :: printJson.printFields ((key, v) :: fs)) ++ ['}'] from rfl]
          rw [List.append_assoc, List.singleton_append, List.cons_append]
          rw [parseJson_succ_cons, if_neg (by decide), if_pos rfl]
          rw [hy, List.cons_append]
          show (parseFields fuel
            ('"' :: (y ++ '}' :: rest))).map
              (fun p => (Json.obj p.1, p.2)) = _
          rw [← List.cons_append, ← hy, h2]
          rfl
    · intro fields rest hneed hne
      cases fields with
      | nil => exact absurd rfl hne
      | cons p tail =>
        obtain ⟨key, v⟩ := p
        have heq : Json.need.needFields ((key, v) :: tail) =
            1 + max (Json.need v) (Json.need.needFields tail) := rfl
        have hnv : Json.need v ≤ fuel := by
          have := Nat.le_max_left (Json.need v) (Json.need.needFields tail)
          omega
        cases tail with
        | nil =>
          rw [show printJson.printFields [(key, v)] =
            (('"' :: (key.map escapeChar).flatten) ++ ['"']) ++
              (':' :: printJson v) from rfl]
          simp only [List.append_assoc, List.cons_append,
            List.singleton_append, List.nil_append]
          rw [parseFields_succ]
          simp only []
          rw [parseStringBody_printString_body]
          simp only []
          rw [ih.1 v ('}' :: rest) hnv
            (by intro c hc; obtain rfl : '}' = c := Option.some.inj hc; decide)]
          simp only []
        | cons q qs =>
          obtain ⟨qk, qv⟩ := q
          have hnt : Json.need.needFields ((qk, qv) :: qs) ≤ fuel := by
            have := Nat.le_max_right (Json.need v)
              (Json.need.needFields ((qk, qv) :: qs))
            omega
          have h2 := ih.2 ((qk, qv) :: qs) rest hnt (by simp)
          rw [show printJson.printFields ((key, v) :: (qk, qv) :: qs) =
            ((('"' :: (key.map escapeChar).flatten) ++ ['"']) ++
              (':' :: printJson v)) ++
                (',' :: printJson.printFields ((qk, qv) :: qs)) from rfl]
          simp only [List.append_assoc, List.cons_append,
            List.singleton_append, List.nil_append]
          rw [parseFields_succ]
          simp only []
          rw [parseStringBody_printString_body]
          simp only []
          rw [ih.1 v (',' :: (printJson.printFields ((qk, qv) :: qs) ++ '}' :: rest)) hnv
            (by intro c hc; obtain rfl : ',' = c := Option.some.inj hc; decide)]
          simp only []
          rw [h2]
          rfl

theorem fromJsonValue_toJsonValue (m : Message) :
    Message.fromJsonValue m.toJsonValue = some m := by
  cases m with
  | Hello v n =>
    simp [Message.toJsonValue, Message.fromJsonValue, getStrField,
      getU32Field, List.lookup]
  | HelloAck v n vc =>
    cases vc <;>
      simp [Message.toJsonValue, Message.fromJsonValue, getStrField,
        getU32Field, getOptStrField, List.lookup]
  | KeyExchange pk c =>
    simp [Message.toJsonValue, Message.fromJsonValue, getStrField, List.lookup]
  | KeyAccepted msg =>
    simp [Message.toJsonValue, Message.fromJsonValue, getStrField, List.lookup]
  | Error code msg =>
    simp [Message.toJsonValue, Message.fromJsonValue, getStrField,
      getU32Field, List.lookup]
  | PairingComplete u =>
    simp [Message.toJsonValue, Message.fromJsonValue, getStrField, List.lookup]

/-- C3: for every value of the declared `Message` type, decoding the wire form
returns the original message — `from_wire(to_wire(m)) = Ok(m)` — and the wire
form produced by `to_wire` is one line of compact JSON plus a single trailing
newline: it contains exactly one `'\n'`, located at its end. -/
theorem C3_wire_roundtrip (m : Message) :
    fromWire (toWire m) = Except.ok m ∧
    (toWire m).count '\n' = 1 ∧ (toWire m).getLast? = some '\n' := by
  refine ⟨?_, ?_, ?_⟩
  · obtain ⟨c, t, hpj, hc⟩ := printJson_head_not_ws m.toJsonValue
    obtain ⟨w, hw, hws⟩ := printJson_getLast_not_ws m.toJsonValue
    have htrim : rustTrim (printJson m.toJsonValue ++ ['\n']) =
        printJson m.toJsonValue := by
      rw [hpj]
      refine rustTrim_line c t hc ?_
      intro x hx
      rw [← hpj] at hx
      rw [hw] at hx
      obtain rfl := Option.some.inj hx
      exact hws
    have hneed : Json.need m.toJsonValue ≤
        (printJson m.toJsonValue).length + 1 :=
      le_trans ((need_le_printJson_aux (sizeOf m.toJsonValue)).1
        m.toJsonValue le_rfl) (Nat.le_succ _)
    have hparse := (parseJson_printJson
      ((printJson m.toJsonValue).length + 1)).1 m.toJsonValue [] hneed
      (by intro c hc; simp at hc)
    rw [List.append_nil] at hparse
    rw [toWire, fromWire]
    rw [htrim, hparse]
    simp only []
    rw [fromJsonValue_toJsonValue]
  · rw [toWire, List.count_append]
    rw [List.count_eq_zero.mpr (newline_notMem_printJson m.toJsonValue)]
    rfl
  · rw [toWire]
    exact List.getLast?_concat _
